import Mathlib

/-!
Verification development for the PARCA resolution and integrity engine.

The definitions below are a shallow embedding of the TypeScript sources:
`assetResolver.ts` (orchestrator), `cacheManager.ts`, `lockfileManager.ts`,
`configLoader.ts`, `manifestResolver.ts` and `publisher.ts`.  External
collaborators (git transport, yaml/json codecs, the sha256 primitive, the
wall clock) are modelled as parameters of an environment record; everything
the repository itself computes is translated directly from the source.
-/

namespace Parca

/-! ## Line-ending normalization (`cacheManager.ts`, `replace(/\r\n/g, "\n")`) -/

/-- One left-to-right pass replacing each CRLF pair by LF, exactly as the
JavaScript global regex replace does (non-overlapping, left to right). -/
def normalizeChars : List Char → List Char
  | [] => []
  | '\r' :: '\n' :: rest => '\n' :: normalizeChars rest
  | c :: rest => c :: normalizeChars rest

/-- `content.replace(/\r\n/g, "\n")` from `cacheManager.ts`. -/
def normalize (s : String) : String := String.mk (normalizeChars s.data)

/-! ## SemVer (model of the `semver` npm package as used by the sources) -/

/-- A prerelease identifier: numeric identifiers compare numerically and
below alphanumeric ones, per the SemVer specification. -/
inductive PreId where
  | num (n : Nat)
  | str (s : String)
  deriving DecidableEq, Repr

/-- A parsed semantic version.  Build metadata is validated but dropped,
because it never participates in precedence. -/
structure SemVer where
  major : Nat
  minor : Nat
  patch : Nat
  prerelease : List PreId
  deriving DecidableEq, Repr

def digitsToNat (cs : List Char) : Nat := cs.foldl (fun a c => a * 10 + (c.toNat - 48)) 0

/-- Strict numeric component: digits only, no leading zero. -/
def parseNumStrict (cs : List Char) : Option Nat :=
  if cs.isEmpty then none
  else if cs.all Char.isDigit then
    if cs.length > 1 ∧ cs.head? = some '0' then none
    else some (digitsToNat cs)
  else none

def idChar (c : Char) : Bool := c.isAlpha || c.isDigit || c = '-'

def parsePreId (cs : List Char) : Option PreId :=
  if cs.isEmpty then none
  else if cs.all Char.isDigit then
    if cs.length > 1 ∧ cs.head? = some '0' then none else some (.num (digitsToNat cs))
  else if cs.all idChar then some (.str (String.mk cs))
  else none

def splitOnCharAux (c : Char) : List Char → List Char → List (List Char)
  | [], acc => [acc.reverse]
  | x :: rest, acc =>
    if x = c then acc.reverse :: splitOnCharAux c rest []
    else splitOnCharAux c rest (x :: acc)

def splitOnChar (c : Char) (cs : List Char) : List (List Char) := splitOnCharAux c cs []

def takeUntil (p : Char → Bool) : List Char → List Char × List Char
  | [] => ([], [])
  | c :: rest =>
    if p c then ([], c :: rest)
    else
      let (a, b) := takeUntil p rest
      (c :: a, b)

/-- `semver.valid` / `new SemVer(...)`: optional `v` prefix, strict numeric
core, optional dash-introduced prerelease, optional plus-introduced build. -/
def parseSemVer (s : String) : Option SemVer :=
  let cs0 := s.data
  let cs :=
    match cs0 with
    | 'v' :: rest => rest
    | _ => cs0
  let (beforePlus, plusPart) := takeUntil (fun c => c = '+') cs
  let buildOk :=
    match plusPart with
    | [] => true
    | _ :: build =>
      !build.isEmpty && (splitOnChar '.' build).all (fun p => !p.isEmpty && p.all idChar)
  if buildOk then
    let (core, dashPart) := takeUntil (fun c => c = '-') beforePlus
    match splitOnChar '.' core with
    | [ma, mi, pa] =>
      match parseNumStrict ma, parseNumStrict mi, parseNumStrict pa with
      | some a, some b, some c =>
        match dashPart with
        | [] => some { major := a, minor := b, patch := c, prerelease := [] }
        | _ :: pre =>
          let parts := (splitOnChar '.' pre).map parsePreId
          if parts.all Option.isSome then
            some { major := a, minor := b, patch := c, prerelease := parts.filterMap id }
          else none
      | _, _, _ => none
    | _ => none
  else none

/-- Sequential composition of comparisons: the second one only matters
when the first is a tie. -/
def ordThen (o₁ o₂ : Ordering) : Ordering :=
  match o₁ with
  | .eq => o₂
  | o => o

/-- Generic lexicographic list comparison over an element comparator; a
strict prefix sorts below the longer list. -/
def lexCmp {α : Type} (cmp : α → α → Ordering) : List α → List α → Ordering
  | [], [] => .eq
  | [], _ :: _ => .lt
  | _ :: _, [] => .gt
  | a :: as, b :: bs => ordThen (cmp a b) (lexCmp cmp as bs)

/-- Code-point comparison of characters, which on the ASCII identifiers
SemVer admits coincides with the JavaScript code-unit comparison. -/
def ccmp (a b : Char) : Ordering := compare a.toNat b.toNat

/-- JavaScript relational comparison of two strings. -/
def strcmp (a b : String) : Ordering := lexCmp ccmp a.data b.data

def pcmp (a b : PreId) : Ordering :=
  match a, b with
  | .num x, .num y => compare x y
  | .num _, .str _ => .lt
  | .str _, .num _ => .gt
  | .str x, .str y => strcmp x y

def plcmp (a b : List PreId) : Ordering := lexCmp pcmp a b

/-- Prerelease precedence: no prerelease sorts above any prerelease on
the same triple, otherwise identifiers decide lexicographically. -/
def preCmp (a b : List PreId) : Ordering :=
  match a, b with
  | [], [] => .eq
  | [], _ :: _ => .gt
  | _ :: _, [] => .lt
  | pa, pb => plcmp pa pb

/-- SemVer precedence: numeric triple first; a version with a prerelease
sorts below the same triple without one. -/
def semverCompare (a b : SemVer) : Ordering :=
  ordThen (compare a.major b.major)
    (ordThen (compare a.minor b.minor)
      (ordThen (compare a.patch b.patch) (preCmp a.prerelease b.prerelease)))

/-- One step of the scan inside `semver.maxSatisfying`: keep the first
candidate and replace it only by a strictly greater one. -/
def semStep (p : String → Option SemVer) (acc : Option (String × SemVer)) (s : String) :
    Option (String × SemVer) :=
  match p s with
  | none => acc
  | some v =>
    match acc with
    | none => some (s, v)
    | some (t, m) => if semverCompare m v = .lt then some (s, v) else some (t, m)

/-- The fold inside `semver.maxSatisfying` over the declared versions. -/
def semMaxFold (p : String → Option SemVer) (l : List String) : Option (String × SemVer) :=
  l.foldl (semStep p) none

/-- `satisfies(v, "*")`: any valid version with no prerelease. -/
def starFilter (s : String) : Option SemVer :=
  match parseSemVer s with
  | some v => if v.prerelease.isEmpty then some v else none
  | none => none

/-- `semver.maxSatisfying(versions, "*")`. -/
def maxSatisfyingStar (l : List String) : Option String := (semMaxFold starFilter l).map (·.1)

inductive CompOp where
  | ltOp | leOp | gtOp | geOp | eqOp
  deriving DecidableEq, Repr

structure Comparator where
  op : CompOp
  ver : SemVer
  deriving DecidableEq, Repr

/-- A range as node-semver represents it after parsing: a disjunction of
comparator conjunctions. -/
def RangeSpec := List (List Comparator)

def satisfiesComp (v : SemVer) (c : Comparator) : Bool :=
  match c.op, semverCompare v c.ver with
  | .ltOp, .lt => true
  | .leOp, .lt => true
  | .leOp, .eq => true
  | .gtOp, .gt => true
  | .geOp, .gt => true
  | .geOp, .eq => true
  | .eqOp, .eq => true
  | _, _ => false

def sameTriple (a b : SemVer) : Bool :=
  a.major == b.major && a.minor == b.minor && a.patch == b.patch

/-- node-semver only lets a prerelease version satisfy a range when some
comparator of the clause carries a prerelease on the same numeric triple. -/
def preAllowed (v : SemVer) (clause : List Comparator) : Bool :=
  v.prerelease.isEmpty || clause.any (fun c => !c.ver.prerelease.isEmpty && sameTriple v c.ver)

def satisfiesRange (v : SemVer) (r : RangeSpec) : Bool :=
  r.any (fun clause => clause.all (satisfiesComp v) && preAllowed v clause)

def rangeFilter (r : RangeSpec) (s : String) : Option SemVer :=
  match parseSemVer s with
  | some v => if satisfiesRange v r then some v else none
  | none => none

/-- `semver.maxSatisfying(versions, range)` for a parsed range. -/
def maxSatisfyingRange (l : List String) (r : RangeSpec) : Option String :=
  (semMaxFold (rangeFilter r) l).map (·.1)

/-- `versions.sort().reverse()[0]` — the JavaScript default string sort is
code-unit lexicographic, so the head of the reversed sorted array is the
lexicographically greatest element. -/
def jsSortDescHead (l : List String) : Option String :=
  ((l.insertionSort (· ≤ ·)).reverse).head?

/-- The requested specifier of `install`: the literal string `latest`, or a
range handed to `semver.maxSatisfying`. -/
inductive VersionSpec where
  | latest
  | range (r : RangeSpec)

/-- Version selection from `install` (`assetResolver.ts` lines 124-133):
`latest` uses `maxSatisfying(versions, "*")` with a lexicographic fallback,
any other specifier goes straight to `maxSatisfying`. -/
def selectVersion (versions : List String) (spec : VersionSpec) : Option String :=
  match spec with
  | .latest =>
    match maxSatisfyingStar versions with
    | some m => some m
    | none => jsSortDescHead versions
  | .range r => maxSatisfyingRange versions r

/-! ## Data model (`types.ts`) -/

inductive AssetKind where
  | prompt | skill | instruction
  deriving DecidableEq, Repr

structure ParcaManifestVersion where
  ref : Option String
  path : String
  deriving DecidableEq, Repr

structure ParcaManifestAsset where
  kind : AssetKind
  description : Option String
  versions : List (String × ParcaManifestVersion)
  deriving DecidableEq, Repr

structure ParcaManifest where
  schema : String
  assets : List (String × ParcaManifestAsset)
  deriving DecidableEq, Repr

inductive GitKind where
  | github | azure
  deriving DecidableEq, Repr

structure ParcaSource where
  provider : GitKind
  url : String
  deriving DecidableEq, Repr

structure ParcaAssetEntry where
  id : String
  source : String
  version : String
  mapping : Option String
  deriving DecidableEq, Repr

structure ParcaConfig where
  schema : String
  sources : List (String × ParcaSource)
  assets : List ParcaAssetEntry
  deriving DecidableEq, Repr

structure ParcaLockedAsset where
  id : String
  version : String
  source : String
  commit : String
  sha256 : String
  manifestHash : String
  resolvedAt : String
  deriving DecidableEq, Repr

structure ParcaLockfile where
  assets : List ParcaLockedAsset
  deriving DecidableEq, Repr

structure ResolvedAsset where
  id : String
  version : String
  source : String
  commit : String
  sha256 : String
  content : String
  cachePath : String
  mapping : Option String
  deriving DecidableEq, Repr

/-- Association-list lookup standing in for a JavaScript object indexed by
string keys (first binding wins; objects never hold duplicate keys). -/
def lookupA {α : Type} (l : List (String × α)) (k : String) : Option α :=
  match l.find? (fun p => p.1 == k) with
  | some p => some p.2
  | none => none

/-- `manifest.assets[assetId] = value`: replace in place when the key
exists, append otherwise (JavaScript object insertion order). -/
def upsertA {α : Type} (l : List (String × α)) (k : String) (v : α) : List (String × α) :=
  if (lookupA l k).isSome then
    l.map (fun p => if p.1 == k then (p.1, v) else p)
  else l ++ [(k, v)]

/-! ## LockfileManager (`lockfileManager.ts`) -/

/-- `LockfileManager.findAsset`. -/
def findAsset (lf : ParcaLockfile) (id source : String) : Option ParcaLockedAsset :=
  lf.assets.find? (fun a => a.id == id && a.source == source)

/-- `LockfileManager.upsertAsset`: drop any entry with the same
`(id, source)` key, then push the new record. -/
def upsertAsset (lf : ParcaLockfile) (entry : ParcaLockedAsset) : ParcaLockfile :=
  { assets := lf.assets.filter (fun a => !(a.id == entry.id && a.source == entry.source)) ++ [entry] }

/-- `LockfileManager.removeAsset`. -/
def removeAsset (lf : ParcaLockfile) (id source : String) : ParcaLockfile :=
  { assets := lf.assets.filter (fun a => !(a.id == id && a.source == source)) }

/-! ## CacheManager (`cacheManager.ts`)

The cache is modelled as a finite map from the key `(source, assetId,
version)` to the stored object: a single file's bytes for prompts and
instructions, or the file tree of a skill directory.  The sha256 primitive
is an environment parameter `h`; `computeHashFromString` pre-normalizes
exactly as the source does. -/

inductive CacheObj where
  | file (content : String)
  | dir (files : List (String × String))
  deriving DecidableEq, Repr

abbrev CacheKey := String × String × String

abbrev Cache := List (CacheKey × CacheObj)

def cacheLookup (c : Cache) (k : CacheKey) : Option CacheObj :=
  match c.find? (fun p => p.1 == k) with
  | some p => some p.2
  | none => none

def cacheInsert (c : Cache) (k : CacheKey) (v : CacheObj) : Cache :=
  c.filter (fun p => !(p.1 == k)) ++ [(k, v)]

/-- `CacheManager.computeHashFromString`: hash of the LF-normalized text. -/
def computeHashFromString (h : String → String) (content : String) : String :=
  h (normalize content)

/-- `CacheManager.getAssetPath` projected into a logical path string:
skills occupy the version directory itself, other kinds the single file
`<assetId>.md` inside it. -/
def getAssetPath (source id version : String) (kind : AssetKind) : String :=
  source ++ "/" ++ id ++ "/" ++ version ++ (if kind = .skill then "" else "/" ++ id ++ ".md")

/-- `CacheManager.computeDirectoryHash`: files sorted by path, then one
digest over the relative-path/normalized-content sequence.  The read from
disk re-normalizes, as `fs.readFileSync(...).replace(/\r\n/g, "\n")` does. -/
def computeDirectoryHash (h : String → String) (files : List (String × String)) : String :=
  let sorted := files.insertionSort (fun a b => a.1 ≤ b.1)
  h (String.join (sorted.map (fun f => f.1 ++ normalize f.2)))

/-- `CacheManager.computeHash` on a stored cache object. -/
def computeHashObj (h : String → String) (obj : CacheObj) : String :=
  match obj with
  | .file content => computeHashFromString h content
  | .dir files => computeDirectoryHash h files

/-- JavaScript's `toLowerCase`, mapped characterwise over the code units
(faithful on the ASCII file names the engine compares). -/
def toLowerStr (s : String) : String := String.mk (s.data.map Char.toLower)

/-- `CacheManager.isCached`: the stored object must exist in the shape the
kind expects, a skill must contain a case-insensitive `SKILL.md`, and when
an expected hash is given (a non-empty string, after JavaScript truthiness)
the hash is recomputed from the stored bytes and compared. -/
def isCached (h : String → String) (c : Cache) (source id version : String)
    (kind : AssetKind) (expectedSha256 : String) : Bool :=
  match cacheLookup c (source, id, version) with
  | none => false
  | some obj =>
    match kind, obj with
    | .skill, .file _ => false
    | .skill, .dir files =>
      if files.any (fun f => toLowerStr f.1 == "skill.md") then
        if expectedSha256 ≠ "" then computeDirectoryHash h files == expectedSha256 else true
      else false
    | _, .file content =>
      if expectedSha256 ≠ "" then computeHashFromString h content == expectedSha256 else true
    | _, .dir files =>
      match lookupA files (id ++ ".md") with
      | some content =>
        if expectedSha256 ≠ "" then computeHashFromString h content == expectedSha256 else true
      | none => false

/-- `CacheManager.readFromCache`. -/
def readFromCache (c : Cache) (source id version : String) (kind : AssetKind) : Option String :=
  match cacheLookup c (source, id, version) with
  | none => none
  | some obj =>
    match kind, obj with
    | .skill, .dir files =>
      match files.find? (fun f => toLowerStr f.1 == "skill.md") with
      | some f => some f.2
      | none => none
    | .skill, .file _ => none
    | _, .file content => some content
    | _, .dir files => lookupA files (id ++ ".md")

/-- `CacheManager.writeToCache`: store the normalized bytes, return the
path and the hash of the normalized bytes (hashing normalizes again). -/
def writeToCache (h : String → String) (c : Cache) (source id version content : String) :
    Cache × String × String :=
  let normalized := normalize content
  let c2 := cacheInsert c (source, id, version) (.file normalized)
  (c2, getAssetPath source id version .prompt, computeHashFromString h normalized)

/-- `CacheManager.writeDirectoryToCache`: replace the whole directory with
the normalized files, then hash the directory as stored on disk. -/
def writeDirectoryToCache (h : String → String) (c : Cache) (source id version : String)
    (files : List (String × String)) : Cache × String × String :=
  let stored := files.map (fun f => (f.1, normalize f.2))
  let c2 := cacheInsert c (source, id, version) (.dir stored)
  (c2, source ++ "/" ++ id ++ "/" ++ version, computeDirectoryHash h stored)

/-! ## Errors, events, environment and state -/

/-- The error taxonomy thrown by the engine.  Each constructor carries the
data interpolated into the corresponding message string of the source, so
"the message enumerates the declared versions" is stated as the error
value carrying that list. -/
inductive PErr where
  | configNotFound
  | invalidConfig
  | badManifest
  | transport (path ref : String)
  | refResolutionFailure (ref : String)
  | assetNotFound (id : String) (available : List String)
  | assetMissing (id : String)
  | versionNotFound (id version : String)
  | noMatchingVersion (id : String) (available : List String)
  | missingSkillEntry (id path : String)
  | integrityMismatch (id version expected actual : String)
  | duplicateVersion (id version : String)
  deriving DecidableEq, Repr

/-- Observable remote and disk interactions, recorded in issue order.  A
`manifestFetch` is one `fetchManifest` call (one HTTP request to the
source's repository), a `contentFetch` one file or directory download, a
`lockWrite` one full rewrite of the lockfile. -/
inductive Ev where
  | manifestFetch (url ref : String)
  | contentFetchFile (path ref : String)
  | contentFetchDir (path ref : String)
  | lockWrite
  deriving DecidableEq, Repr

/-- A source repository as the engine sees it (the `GitProvider` plus the
yaml codec behind `ManifestResolver.fetchManifest`): pure maps from refs to
commits, manifests and contents.  `none` models a transport or not-found
failure. -/
structure Repo where
  url : String
  resolveRef : String → Option String
  manifestAt : String → Option ParcaManifest
  fileAt : String → String → Option String
  dirAt : String → String → Option (List (String × String))

/-- External collaborators that the repository code calls but does not
implement: the sha256 primitive, JSON serialization of a manifest, the
wall clock, alias derivation from a URL, and the provider registry. -/
structure Env where
  h : String → String
  serializeManifest : ParcaManifest → String
  now : String
  deriveAlias : String → String
  repoOf : String → Repo

/-- Persistent workspace state: the consumer declaration file (absent or
parsed), the lockfile, the content cache, plus the event trace. -/
structure St where
  config : Option ParcaConfig
  lockfile : ParcaLockfile
  cache : Cache
  events : List Ev
  deriving DecidableEq, Repr

def addEvent (st : St) (e : Ev) : St := { st with events := st.events ++ [e] }

/-- `ManifestResolver.fetchManifest`: one fetch of `parca-manifest.yaml`
at the given ref, then `validate` (the schema field must be truthy). -/
def fetchManifest (repo : Repo) (ref : String) (st : St) : Except PErr ParcaManifest × St :=
  let st := addEvent st (.manifestFetch repo.url ref)
  match repo.manifestAt ref with
  | none => (.error (.transport "parca-manifest.yaml" ref), st)
  | some m => if m.schema ≠ "" then (.ok m, st) else (.error .badManifest, st)

/-- The ref resolution strategy of `resolveAsset`: an explicit per-version
ref wins, otherwise the manifest ref in use for this call. -/
def effectiveRefOf (vm : ParcaManifestVersion) (manifestRef : String) : String :=
  vm.ref.getD manifestRef

/-- The kind-dependent slow path of `resolveAsset`: fetch the content at
the effective ref, write it to the cache, and return
`(sha256, cachePath, content)`. -/
def fetchAndCache (env : Env) (repo : Repo) (entry : ParcaAssetEntry) (kind : AssetKind)
    (vm : ParcaManifestVersion) (effRef : String) (st : St) :
    Except PErr (String × String × String) × St :=
  match kind with
  | .skill =>
    let st := addEvent st (.contentFetchDir vm.path effRef)
    match repo.dirAt vm.path effRef with
    | none => (.error (.transport vm.path effRef), st)
    | some files =>
      match files.find? (fun f => toLowerStr f.1 == "skill.md") with
      | none => (.error (.missingSkillEntry entry.id vm.path), st)
      | some skillFile =>
        let (c2, dirPath, sha) :=
          writeDirectoryToCache env.h st.cache entry.source entry.id entry.version files
        (.ok (sha, dirPath, skillFile.2), { st with cache := c2 })
  | _ =>
    let st := addEvent st (.contentFetchFile vm.path effRef)
    match repo.fileAt vm.path effRef with
    | none => (.error (.transport vm.path effRef), st)
    | some content =>
      let (c2, filePath, sha) :=
        writeToCache env.h st.cache entry.source entry.id entry.version content
      (.ok (sha, filePath, content), { st with cache := c2 })

/-- The fast-path guard of `resolveAsset`: the lockfile already pins this
`(id, source)` pair at the same declared version and the same resolved
commit, updates are not allowed, and the cache still matches the recorded
hash.  Returns the locked record on a hit. -/
def fastPathHit (env : Env) (st : St) (entry : ParcaAssetEntry) (kind : AssetKind)
    (commit : String) (allowUpdate : Bool) : Option ParcaLockedAsset :=
  match findAsset st.lockfile entry.id entry.source with
  | some l =>
    if l.version = entry.version ∧ l.commit = commit ∧ allowUpdate = false then
      if isCached env.h st.cache entry.source entry.id entry.version kind l.sha256 then some l
      else none
    else none
  | none => none

/-- The tail of `resolveAsset` past the integrity gate: hash the manifest
document, upsert and save the lockfile, return the resolved asset. -/
def finishResolve (env : Env) (entry : ParcaAssetEntry) (manifest : ParcaManifest)
    (commit sha cachedPath content : String) (st2 : St) : Except PErr ResolvedAsset × St :=
  let manifestHash := computeHashFromString env.h (env.serializeManifest manifest)
  let lockedEntry : ParcaLockedAsset :=
    { id := entry.id
      version := entry.version
      source := entry.source
      commit := commit
      sha256 := sha
      manifestHash := manifestHash
      resolvedAt := env.now }
  let st3 :=
    { st2 with
      lockfile := upsertAsset st2.lockfile lockedEntry
      events := st2.events ++ [.lockWrite] }
  (.ok
    { id := entry.id
      version := entry.version
      source := entry.source
      commit := commit
      sha256 := sha
      content := content
      cachePath := cachedPath
      mapping := entry.mapping }, st3)

/-- `AssetResolver.resolveAsset`, the core reconciliation primitive:
manifest lookups, ref resolution, the lockfile fast path, the slow fetch,
the integrity gate, and the lockfile upsert. -/
def resolveAsset (env : Env) (repo : Repo) (entry : ParcaAssetEntry) (manifest : ParcaManifest)
    (manifestRef : String) (allowUpdate : Bool) (st : St) : Except PErr ResolvedAsset × St :=
  match lookupA manifest.assets entry.id with
  | none => (.error (.assetMissing entry.id), st)
  | some assetMeta =>
    match lookupA assetMeta.versions entry.version with
    | none => (.error (.versionNotFound entry.id entry.version), st)
    | some versionMeta =>
      let effRef := effectiveRefOf versionMeta manifestRef
      match repo.resolveRef effRef with
      | none => (.error (.refResolutionFailure effRef), st)
      | some commit =>
        let locked := findAsset st.lockfile entry.id entry.source
        let kind := assetMeta.kind
        match fastPathHit env st entry kind commit allowUpdate with
        | some l =>
          (.ok
            { id := entry.id
              version := entry.version
              source := entry.source
              commit := commit
              sha256 := l.sha256
              content := (readFromCache st.cache entry.source entry.id entry.version kind).getD ""
              cachePath := getAssetPath entry.source entry.id entry.version kind
              mapping := entry.mapping }, st)
        | none =>
          match fetchAndCache env repo entry kind versionMeta effRef st with
          | (.error e, st2) => (.error e, st2)
          | (.ok (sha, cachedPath, content), st2) =>
            match locked with
            | some l =>
              if l.sha256 ≠ "" ∧ l.sha256 ≠ sha ∧ allowUpdate = false then
                (.error (.integrityMismatch entry.id entry.version l.sha256 sha), st2)
              else
                finishResolve env entry manifest commit sha cachedPath content st2
            | none =>
              finishResolve env entry manifest commit sha cachedPath content st2

/-! ## ConfigLoader (`configLoader.ts`) -/

/-- `ConfigLoader.validate`: throws on a falsy schema, a missing sources
object or assets array, an entry missing id/source/version, or an entry
referencing an unregistered source.  In the typed model the shape checks
reduce to the truthiness ones. -/
def validateConfig (c : ParcaConfig) : Bool :=
  c.schema != "" &&
    c.assets.all (fun a =>
      a.id != "" && a.source != "" && a.version != "" && (lookupA c.sources a.source).isSome)

/-- `ConfigLoader.load`: fails when the file is absent or invalid. -/
def loadConfig (st : St) : Except PErr ParcaConfig :=
  match st.config with
  | none => .error .configNotFound
  | some c => if validateConfig c then .ok c else .error .invalidConfig

/-- `ConfigLoader.addAsset` without the disk write: drop any entry with
the same `(id, source)` pair, then push the new entry. -/
def addAssetPure (assets : List ParcaAssetEntry) (entry : ParcaAssetEntry) :
    List ParcaAssetEntry :=
  assets.filter (fun a => !(a.id == entry.id && a.source == entry.source)) ++ [entry]

/-- `ConfigLoader.ensureSource`: load (or initialize a fresh config on any
load failure), return an existing alias whose registered URL matches, else
derive an alias, register the source and save. -/
def ensureSource (env : Env) (url : String) (provider : GitKind) (st : St) :
    (ParcaConfig × String) × St :=
  let cfg :=
    match loadConfig st with
    | .ok c => c
    | .error _ => { schema := "1.0", sources := [], assets := [] }
  let st :=
    match loadConfig st with
    | .ok _ => st
    | .error _ => { st with config := some cfg }
  match cfg.sources.find? (fun p => p.2.url == url) with
  | some p => ((cfg, p.1), st)
  | none =>
    let alias0 := env.deriveAlias url
    let cfg2 := { cfg with sources := cfg.sources ++ [(alias0, ⟨provider, url⟩)] }
    ((cfg2, alias0), { st with config := some cfg2 })

/-- `ConfigLoader.inferProvider`. -/
def prefixCL : List Char → List Char → Bool
  | [], _ => true
  | _ :: _, [] => false
  | a :: as, b :: bs => a == b && prefixCL as bs

def hasSubstrCL (pat : List Char) : List Char → Bool
  | [] => pat.isEmpty
  | c :: rest => prefixCL pat (c :: rest) || hasSubstrCL pat rest

def hasSubstr (s pat : String) : Bool := hasSubstrCL pat.data s.data

def inferProvider (url : String) : GitKind :=
  if hasSubstr url "dev.azure.com" || hasSubstr url "visualstudio.com" then .azure else .github

/-- `AssetResolver.getDefaultMapping`. -/
def getDefaultMapping (kind : AssetKind) (assetId : String) : String :=
  match kind with
  | .prompt => ".github/prompts/" ++ assetId ++ ".prompt.md"
  | .instruction => ".github/instructions/" ++ assetId ++ ".instructions.md"
  | .skill => ".github/skills/" ++ assetId ++ "/SKILL.md"

/-! ## `AssetResolver.resolveAll` -/

/-- The manifest-revision decision of `resolveAll`: stay on the locked
commit when the lockfile pins the same declared version, else use the
registry's moving ref `main`. -/
def manifestRefFor (lf : ParcaLockfile) (asset : ParcaAssetEntry) : String :=
  match findAsset lf asset.id asset.source with
  | some locked => if locked.version = asset.version then locked.commit else "main"
  | none => "main"

/-- The body of the inner loop of `resolveAll` for one asset: fetch the
manifest at the decided revision, then run `resolveAsset` with
`allowUpdate = false`.  `lf0` is the lockfile loaded once at the start of
the run. -/
def processAsset (env : Env) (url : String) (lf0 : ParcaLockfile) (asset : ParcaAssetEntry)
    (st : St) : Except PErr ResolvedAsset × St :=
  let repo := env.repoOf url
  let mref := manifestRefFor lf0 asset
  match fetchManifest repo mref st with
  | (.error e, st2) => (.error e, st2)
  | (.ok m, st2) => resolveAsset env repo asset m mref false st2

/-- The inner loop of `resolveAll` over one source's assets: process them
in order, collect the successes, swallow per-asset failures (they are only
reported through the progress sink). -/
def processAssetsLoop (env : Env) (url : String) (lf0 : ParcaLockfile) :
    List ParcaAssetEntry → St → List ResolvedAsset × St
  | [], st => ([], st)
  | a :: rest, st =>
    match processAsset env url lf0 a st with
    | (.ok r, st2) =>
      let (rs, st3) := processAssetsLoop env url lf0 rest st2
      (r :: rs, st3)
    | (.error _, st2) => processAssetsLoop env url lf0 rest st2

/-- One source-alias group of `resolveAll`: skip every asset when the
alias is not registered (per-asset errors only), otherwise run the inner
loop against the registered URL. -/
def processGroup (env : Env) (sources : List (String × ParcaSource)) (lf0 : ParcaLockfile)
    (alias0 : String) (assets : List ParcaAssetEntry) (st : St) : List ResolvedAsset × St :=
  match lookupA sources alias0 with
  | none => ([], st)
  | some src => processAssetsLoop env src.url lf0 assets st

/-- First occurrences of each source alias, in declaration order (the
iteration order of the `Map` built by `resolveAll`). -/
def dedupFirstAux (seen : List String) : List String → List String
  | [] => []
  | a :: rest =>
    if seen.contains a then dedupFirstAux seen rest
    else a :: dedupFirstAux (seen ++ [a]) rest

def dedupFirst (l : List String) : List String := dedupFirstAux [] l

/-- `resolveAll`'s grouping of the declared assets by source alias. -/
def groupBySource (assets : List ParcaAssetEntry) : List (String × List ParcaAssetEntry) :=
  (dedupFirst (assets.map (·.source))).map
    (fun alias0 => (alias0, assets.filter (fun a => a.source == alias0)))

/-- The outer loop of `resolveAll` over the source-alias groups. -/
def processGroups (env : Env) (sources : List (String × ParcaSource)) (lf0 : ParcaLockfile) :
    List (String × List ParcaAssetEntry) → St → List ResolvedAsset × St
  | [], st => ([], st)
  | g :: rest, st =>
    let (rs, st2) := processGroup env sources lf0 g.1 g.2 st
    let (rs2, st3) := processGroups env sources lf0 rest st2
    (rs ++ rs2, st3)

/-- `AssetResolver.resolveAll`: load config and lockfile, group by source,
resolve every declared asset, return the list of successes. -/
def resolveAll (env : Env) (st : St) : Except PErr (List ResolvedAsset) × St :=
  match loadConfig st with
  | .error e => (.error e, st)
  | .ok cfg =>
    let out := processGroups env cfg.sources st.lockfile (groupBySource cfg.assets) st
    (.ok out.1, out.2)

/-! ## `AssetResolver.install` -/

/-- The outcome of `install`: a resolved asset, or the sentinel for an
already-installed asset (the existing entry plus the newly selected
version), with the overwrite decision deferred to the caller. -/
inductive InstallOutcome where
  | resolved (r : ResolvedAsset)
  | alreadyInstalled (existing : ParcaAssetEntry) (selectedVersion : String)
  deriving DecidableEq, Repr

/-- Steps 3-5 of `install`: ensure the source, resolve first, persist the
config entry only after resolution succeeds. -/
def installResolvePhase (env : Env) (url : String) (provider : GitKind) (repo : Repo)
    (assetId version : String) (assetMeta : ParcaManifestAsset) (manifest : ParcaManifest)
    (registryCommit : String) (st1 : St) : Except PErr InstallOutcome × St :=
  let ((updatedConfig, alias0), st2) := ensureSource env url provider st1
  let entry : ParcaAssetEntry :=
    { id := assetId
      source := alias0
      version := version
      mapping := some (getDefaultMapping assetMeta.kind assetId) }
  match resolveAsset env repo entry manifest registryCommit true st2 with
  | (.error e, st3) => (.error e, st3)
  | (.ok resolved, st3) =>
    let cfg3 := { updatedConfig with assets := addAssetPure updatedConfig.assets entry }
    (.ok (.resolved resolved), { st3 with config := some cfg3 })

/-- `AssetResolver.install`: fetch the manifest at the registry head,
select a version, return the conflict sentinel when the config already
has an entry with this asset id and `force` is false, otherwise resolve
with `allowUpdate = true` and only then persist the new config entry. -/
def install (env : Env) (url assetId : String) (spec : VersionSpec) (forceReinstall : Bool)
    (st : St) : Except PErr InstallOutcome × St :=
  let provider := inferProvider url
  let repo := env.repoOf url
  match repo.resolveRef "main" with
  | none => (.error (.refResolutionFailure "main"), st)
  | some registryCommit =>
    match fetchManifest repo registryCommit st with
    | (.error e, st1) => (.error e, st1)
    | (.ok manifest, st1) =>
      match lookupA manifest.assets assetId with
      | none => (.error (.assetNotFound assetId (manifest.assets.map (·.1))), st1)
      | some assetMeta =>
        let versions := assetMeta.versions.map (·.1)
        match selectVersion versions spec with
        | none => (.error (.noMatchingVersion assetId versions), st1)
        | some version =>
          match loadConfig st1 with
          | .error e => (.error e, st1)
          | .ok config =>
            match config.assets.find? (fun a => a.id == assetId) with
            | some existing =>
              if forceReinstall then
                installResolvePhase env url provider repo assetId version assetMeta manifest
                  registryCommit st1
              else (.ok (.alreadyInstalled existing version), st1)
            | none =>
              installResolvePhase env url provider repo assetId version assetMeta manifest
                registryCommit st1

/-! ## Publisher (`publisher.ts`) -/

/-- The checkpoint candidate of `publishVersion`:
`semver.maxSatisfying(existingVersions, "*") || existingVersions.sort().reverse()[0]`,
computed over the SemVer-valid existing versions. -/
def previousVersionOf (existingVersions : List String) : Option String :=
  match maxSatisfyingStar existingVersions with
  | some p => some p
  | none => jsSortDescHead existingVersions

/-- Set the `ref` of the binding at the given key (the in-place mutation
`previousMeta.ref = currentCommit`). -/
def setRefAt (l : List (String × ParcaManifestVersion)) (k commit : String) :
    List (String × ParcaManifestVersion) :=
  l.map (fun p => if p.1 == k then (p.1, { p.2 with ref := some commit }) else p)

/-- The checkpoint block of `publishVersion`: among the SemVer-valid
existing versions pick `maxSatisfying(·, "*") || sort().reverse()[0]`, and
when that version exists and carries no explicit ref, pin it to the head
commit; a failing head lookup skips the step with a warning. -/
def checkpointVersions (versions : List (String × ParcaManifestVersion))
    (headCommit : Option String) : List (String × ParcaManifestVersion) :=
  let existingVersions := (versions.map (·.1)).filter (fun v => (parseSemVer v).isSome)
  if existingVersions.length > 0 then
    match previousVersionOf existingVersions with
    | none => versions
    | some previousVersion =>
      match lookupA versions previousVersion with
      | none => versions
      | some previousMeta =>
        if previousMeta.ref = none then
          match headCommit with
          | some commit => setRefAt versions previousVersion commit
          | none => versions
        else versions
  else versions

/-- `Publisher.publishVersion`.  `headCommit` models
`execSync("git rev-parse HEAD")`: `none` is the failing invocation. -/
def publishVersion (m : ParcaManifest) (assetId version filePath : String) (kind : AssetKind)
    (headCommit : Option String) : Except PErr ParcaManifest :=
  let asset :=
    match lookupA m.assets assetId with
    | some a => a
    | none => { kind := kind, description := none, versions := [] }
  match lookupA asset.versions version with
  | some _ => .error (.duplicateVersion assetId version)
  | none =>
    let asset2 :=
      { asset with
        versions := checkpointVersions asset.versions headCommit ++
          [(version, { ref := none, path := filePath })] }
    .ok { m with assets := upsertA m.assets assetId asset2 }

/-- A sequence of `publishVersion` calls on one asset, aborting on the
first error (each call reads the manifest the previous one saved). -/
def publishSeq (m : ParcaManifest) (assetId : String) (pubs : List (String × String))
    (kind : AssetKind) (headCommit : Option String) : Except PErr ParcaManifest :=
  match pubs with
  | [] => .ok m
  | (v, p) :: rest =>
    match publishVersion m assetId v p kind headCommit with
    | .error e => .error e
    | .ok m2 => publishSeq m2 assetId rest kind headCommit

/-- The version table of one asset in a manifest (empty when absent). -/
def assetVersions (m : ParcaManifest) (assetId : String) :
    List (String × ParcaManifestVersion) :=
  match lookupA m.assets assetId with
  | some a => a.versions
  | none => []

deriving instance DecidableEq for Except

/-! ## Concrete fixtures used by witnesses and counterexamples -/

/-- A collision-free stand-in for the sha256 primitive: witnesses only
ever compare hashes of concrete strings, for which the identity map is a
faithful model of a collision-free digest. -/
def exHash : String → String := fun s => s

/-- Manifest with one prompt asset `a` at version `1.0.0`, pinned to the
ref `tag1`. -/
def exManifest1 : ParcaManifest :=
  { schema := "1.0"
    assets :=
      [("a",
        { kind := .prompt
          description := none
          versions := [("1.0.0", { ref := some "tag1", path := "p.md" })] })] }

def exRepo1 : Repo :=
  { url := "https://example.invalid/org/repo"
    resolveRef := fun r => if r == "tag1" then some "c2" else if r == "main" then some "c0" else some r
    manifestAt := fun _ => some exManifest1
    fileAt := fun p r => if p == "p.md" && r == "tag1" then some "NEW" else none
    dirAt := fun _ _ => none }

def exEnv1 : Env :=
  { h := exHash
    serializeManifest := fun _ => "MDOC"
    now := "t2"
    deriveAlias := fun _ => "derived"
    repoOf := fun _ => exRepo1 }

def exLocked1 : ParcaLockedAsset :=
  { id := "a", version := "1.0.0", source := "s", commit := "c1", sha256 := "OLD"
    manifestHash := "mh", resolvedAt := "t1" }

def exEntry1 : ParcaAssetEntry := { id := "a", source := "s", version := "1.0.0", mapping := none }

def exSt1 : St :=
  { config := none
    lockfile := { assets := [exLocked1] }
    cache := [(("s", "a", "1.0.0"), .file "OLD")]
    events := [] }

/-- Skill-kind mismatch fixture: the skill `sk` is locked at commit `c1`
with the directory hash of `SKILL.md` holding `OLD`, while the version's
pin `tag1` now resolves to `c2` and the remote directory holds `NEW`. -/
def exManifest9 : ParcaManifest :=
  { schema := "1.0"
    assets :=
      [("sk",
        { kind := .skill
          description := none
          versions := [("1.0.0", { ref := some "tag1", path := "dir" })] })] }

def exRepo9 : Repo :=
  { url := "u9"
    resolveRef := fun r => if r == "tag1" then some "c2" else if r == "main" then some "c0" else none
    manifestAt := fun _ => some exManifest9
    fileAt := fun _ _ => none
    dirAt := fun p r => if p == "dir" && r == "tag1" then some [("SKILL.md", "NEW")] else none }

def exEnv9 : Env :=
  { h := exHash
    serializeManifest := fun _ => "MDOC9"
    now := "t9"
    deriveAlias := fun _ => "derived"
    repoOf := fun _ => exRepo9 }

def exLocked9 : ParcaLockedAsset :=
  { id := "sk", version := "1.0.0", source := "s", commit := "c1", sha256 := "SKILL.mdOLD"
    manifestHash := "mh", resolvedAt := "t1" }

def exEntry9 : ParcaAssetEntry := { id := "sk", source := "s", version := "1.0.0", mapping := none }

def exSt9 : St :=
  { config := none
    lockfile := { assets := [exLocked9] }
    cache := [(("s", "sk", "1.0.0"), .dir [("SKILL.md", "OLD")])]
    events := [] }

/-- Repository fixture for one source with two prompt assets `x` and `y`,
both declaring version `1.0.0` as rolling. -/
def exManifest8 : ParcaManifest :=
  { schema := "1.0"
    assets :=
      [("x", { kind := .prompt, description := none
               versions := [("1.0.0", { ref := none, path := "x.md" })] }),
       ("y", { kind := .prompt, description := none
               versions := [("1.0.0", { ref := none, path := "y.md" })] })] }

def exRepo8 : Repo :=
  { url := "u8"
    resolveRef := fun r => if r == "main" then some "c0" else none
    manifestAt := fun r => if r == "main" then some exManifest8 else none
    fileAt := fun p r =>
      if p == "x.md" && r == "main" then some "X"
      else if p == "y.md" && r == "main" then some "Y" else none
    dirAt := fun _ _ => none }

def exEnv8 : Env :=
  { h := exHash
    serializeManifest := fun _ => "MDOC8"
    now := "t8"
    deriveAlias := fun _ => "derived"
    repoOf := fun _ => exRepo8 }

def exCfg8 : ParcaConfig :=
  { schema := "1.0"
    sources := [("s", { provider := .github, url := "u8" })]
    assets :=
      [{ id := "x", source := "s", version := "1.0.0", mapping := none },
       { id := "y", source := "s", version := "1.0.0", mapping := none }] }

def exSt8 : St := { config := some exCfg8, lockfile := { assets := [] }, cache := [], events := [] }

def isManifestFetchTo (url : String) (e : Ev) : Bool :=
  match e with
  | .manifestFetch u _ => u == url
  | _ => false

def isManifestFetch (e : Ev) : Bool :=
  match e with
  | .manifestFetch _ _ => true
  | _ => false

/-- Manifest fixture for the publish counterexample: the maximum
SemVer-valid version `1.0.0` is already pinned, the older `0.9.0` rolls. -/
def exManifest6 : ParcaManifest :=
  { schema := "1.0"
    assets :=
      [("a", { kind := .prompt, description := none
               versions :=
                 [("0.9.0", { ref := none, path := "p0" }),
                  ("1.0.0", { ref := some "c0", path := "p1" })] })] }

def exEmptyManifest : ParcaManifest := { schema := "1.0", assets := [] }

/-- Fixture for install: a source at `u5` declaring one rolling version of
prompt asset `a`, while the workspace config already lists `a` from a
different source alias. -/
def exManifest5 : ParcaManifest :=
  { schema := "1.0"
    assets :=
      [("a", { kind := .prompt, description := none
               versions := [("1.0.0", { ref := none, path := "p.md" })] })] }

def exRepo5 : Repo :=
  { url := "u5"
    resolveRef := fun r => if r == "main" || r == "c0" then some "c0" else none
    manifestAt := fun r => if r == "c0" then some exManifest5 else none
    fileAt := fun p r => if p == "p.md" && r == "c0" then some "HELLO" else none
    dirAt := fun _ _ => none }

def exEnv5 : Env :=
  { h := exHash
    serializeManifest := fun _ => "MDOC5"
    now := "t5"
    deriveAlias := fun _ => "derived"
    repoOf := fun _ => exRepo5 }

def exExisting5 : ParcaAssetEntry :=
  { id := "a", source := "s1", version := "0.5.0", mapping := none }

def exCfg5 : ParcaConfig :=
  { schema := "1.0"
    sources := [("s1", { provider := .github, url := "other" })]
    assets := [exExisting5] }

def exSt5 : St := { config := some exCfg5, lockfile := { assets := [] }, cache := [], events := [] }

/-- Fixture for the fast path: the lockfile pins `a@1.0.0` at commit `c1`
and the cache still matches the recorded hash. -/
def exManifest3 : ParcaManifest :=
  { schema := "1.0"
    assets :=
      [("a", { kind := .prompt, description := none
               versions := [("1.0.0", { ref := none, path := "p.md" })] })] }

def exRepo3 : Repo :=
  { url := "u3"
    resolveRef := fun r => if r == "c1" then some "c1" else none
    manifestAt := fun r => if r == "c1" then some exManifest3 else none
    fileAt := fun _ _ => none
    dirAt := fun _ _ => none }

def exEnv3 : Env :=
  { h := exHash
    serializeManifest := fun _ => "MDOC3"
    now := "t3"
    deriveAlias := fun _ => "derived"
    repoOf := fun _ => exRepo3 }

def exLocked3 : ParcaLockedAsset :=
  { id := "a", version := "1.0.0", source := "s", commit := "c1", sha256 := "BODY"
    manifestHash := "mh", resolvedAt := "t1" }

def exSt3 : St :=
  { config := none
    lockfile := { assets := [exLocked3] }
    cache := [(("s", "a", "1.0.0"), .file "BODY")]
    events := [] }

/-- Strictly ascending with respect to the values a filter assigns: every
earlier element's value compares below every later element's value. -/
def AscendingOn (p : String → Option SemVer) (l : List String) : Prop :=
  List.Pairwise (fun x y => ∀ vx vy, p x = some vx → p y = some vy → semverCompare vx vy = .lt) l

/-- The version strings of an asset's version table, in manifest order. -/
def versionKeys (vs : List (String × ParcaManifestVersion)) : List String := vs.map (·.1)

/-- The rolling versions: those without an explicit ref. -/
def unpinnedVersions (vs : List (String × ParcaManifestVersion)) : List String :=
  (vs.filter (fun p => p.2.ref.isNone)).map (·.1)

/-- Every version except possibly the final (most recently published) one
carries an explicit ref. -/
def allButLastPinned : List (String × ParcaManifestVersion) → Bool
  | [] => true
  | [_] => true
  | p :: q :: rest => p.2.ref.isSome && allButLastPinned (q :: rest)

/-! ## Order laws for the SemVer comparator -/

theorem ordThen_swap (o₁ o₂ : Ordering) : (ordThen o₁ o₂).swap = ordThen o₁.swap o₂.swap := by
  cases o₁ <;> rfl

theorem ordThen_eq_gt {o₁ o₂ : Ordering} :
    ordThen o₁ o₂ = .gt ↔ o₁ = .gt ∨ (o₁ = .eq ∧ o₂ = .gt) := by
  cases o₁ <;> simp [ordThen]

theorem ordThen_eq_eq {o₁ o₂ : Ordering} : ordThen o₁ o₂ = .eq ↔ o₁ = .eq ∧ o₂ = .eq := by
  cases o₁ <;> simp [ordThen]

theorem ccmp_swap (a b : Char) : (ccmp a b).swap = ccmp b a := Nat.compare_swap ..

theorem ccmp_congL {a b : Char} (h : ccmp a b = .eq) (c : Char) : ccmp a c = ccmp b c := by
  unfold ccmp at h ⊢
  rw [Nat.compare_eq_eq.mp h]

theorem ccmp_trans_gt {a b c : Char} (h₁ : ccmp a b = .gt) (h₂ : ccmp b c = .gt) :
    ccmp a c = .gt := by
  unfold ccmp at h₁ h₂ ⊢
  exact Nat.compare_eq_gt.mpr (Nat.lt_trans (Nat.compare_eq_gt.mp h₂) (Nat.compare_eq_gt.mp h₁))

theorem lexCmp_swap {α : Type} (cmp : α → α → Ordering)
    (hswap : ∀ a b, (cmp a b).swap = cmp b a) :
    ∀ l₁ l₂, (lexCmp cmp l₁ l₂).swap = lexCmp cmp l₂ l₁ := by
  intro l₁
  induction l₁ with
  | nil => intro l₂; cases l₂ <;> rfl
  | cons a as ih =>
    intro l₂
    cases l₂ with
    | nil => rfl
    | cons b bs =>
      show (ordThen (cmp a b) (lexCmp cmp as bs)).swap = ordThen (cmp b a) (lexCmp cmp bs as)
      rw [ordThen_swap, hswap a b, ih bs]

theorem lexCmp_congL {α : Type} (cmp : α → α → Ordering)
    (hcong : ∀ a b, cmp a b = .eq → ∀ c, cmp a c = cmp b c) :
    ∀ l₁ l₂, lexCmp cmp l₁ l₂ = .eq → ∀ l₃, lexCmp cmp l₁ l₃ = lexCmp cmp l₂ l₃ := by
  intro l₁
  induction l₁ with
  | nil =>
    intro l₂ h l₃
    cases l₂ with
    | nil => rfl
    | cons b bs => exact absurd h (by simp [lexCmp])
  | cons a as ih =>
    intro l₂ h l₃
    cases l₂ with
    | nil => exact absurd h (by simp [lexCmp])
    | cons b bs =>
      have h2 : ordThen (cmp a b) (lexCmp cmp as bs) = .eq := h
      rw [ordThen_eq_eq] at h2
      cases l₃ with
      | nil => rfl
      | cons c cs =>
        show ordThen (cmp a c) (lexCmp cmp as cs) = ordThen (cmp b c) (lexCmp cmp bs cs)
        rw [hcong a b h2.1 c, ih bs h2.2 cs]

theorem lexCmp_trans_gt {α : Type} (cmp : α → α → Ordering)
    (hswap : ∀ a b, (cmp a b).swap = cmp b a)
    (hcong : ∀ a b, cmp a b = .eq → ∀ c, cmp a c = cmp b c)
    (htrans : ∀ a b c, cmp a b = .gt → cmp b c = .gt → cmp a c = .gt) :
    ∀ l₁ l₂ l₃, lexCmp cmp l₁ l₂ = .gt → lexCmp cmp l₂ l₃ = .gt → lexCmp cmp l₁ l₃ = .gt := by
  intro l₁
  induction l₁ with
  | nil =>
    intro l₂ l₃ h₁ _
    cases l₂ <;> simp [lexCmp] at h₁
  | cons a as ih =>
    intro l₂ l₃ h₁ h₂
    cases l₂ with
    | nil => cases l₃ <;> simp [lexCmp] at h₂
    | cons b bs =>
      cases l₃ with
      | nil => rfl
      | cons c cs =>
        have h₁g : ordThen (cmp a b) (lexCmp cmp as bs) = .gt := h₁
        have h₂g : ordThen (cmp b c) (lexCmp cmp bs cs) = .gt := h₂
        rw [ordThen_eq_gt] at h₁g h₂g
        show ordThen (cmp a c) (lexCmp cmp as cs) = .gt
        rw [ordThen_eq_gt]
        rcases h₁g with hab | ⟨hab, habs⟩
        · rcases h₂g with hbc | ⟨hbc, _⟩
          · exact Or.inl (htrans a b c hab hbc)
          · left
            have hc : cmp b a = cmp c a := hcong b c hbc a
            have : (cmp a b).swap = cmp b a := hswap a b
            have hca : cmp c a = .lt := by
              rw [← hc, ← this, hab]; rfl
            have := hswap c a
            rw [hca] at this
            exact this.symm
        · rcases h₂g with hbc | ⟨hbc, hbcs⟩
          · exact Or.inl (by rw [hcong a b hab c]; exact hbc)
          · exact Or.inr ⟨by rw [hcong a b hab c]; exact hbc, ih bs cs habs hbcs⟩

theorem pcmp_swap (a b : PreId) : (pcmp a b).swap = pcmp b a := by
  cases a with
  | num x =>
    cases b with
    | num y => exact Nat.compare_swap ..
    | str y => rfl
  | str x =>
    cases b with
    | num y => rfl
    | str y => exact lexCmp_swap ccmp ccmp_swap x.data y.data

theorem pcmp_congL {a b : PreId} (h : pcmp a b = .eq) (c : PreId) : pcmp a c = pcmp b c := by
  cases a with
  | num x =>
    cases b with
    | num y =>
      have hxy : x = y := Nat.compare_eq_eq.mp h
      rw [hxy]
    | str y => exact absurd h (by simp [pcmp])
  | str x =>
    cases b with
    | num y => exact absurd h (by simp [pcmp])
    | str y =>
      have h2 : lexCmp ccmp x.data y.data = .eq := h
      cases c with
      | num z => rfl
      | str z =>
        show lexCmp ccmp x.data z.data = lexCmp ccmp y.data z.data
        exact lexCmp_congL ccmp (fun _ _ hh cc => ccmp_congL hh cc) x.data y.data h2 z.data

theorem pcmp_trans_gt {a b c : PreId} (h₁ : pcmp a b = .gt) (h₂ : pcmp b c = .gt) :
    pcmp a c = .gt := by
  cases a with
  | num x =>
    cases b with
    | num y =>
      cases c with
      | num z =>
        have hyx : y < x := Nat.compare_eq_gt.mp h₁
        have hzy : z < y := Nat.compare_eq_gt.mp h₂
        exact Nat.compare_eq_gt.mpr (Nat.lt_trans hzy hyx)
      | str z => exact absurd h₂ (by simp [pcmp])
    | str y => exact absurd h₁ (by simp [pcmp])
  | str x =>
    cases b with
    | num y =>
      cases c with
      | num z => rfl
      | str z => exact absurd h₂ (by simp [pcmp])
    | str y =>
      cases c with
      | num z => rfl
      | str z =>
        show lexCmp ccmp x.data z.data = .gt
        exact lexCmp_trans_gt ccmp ccmp_swap (fun _ _ hh cc => ccmp_congL hh cc)
          (fun _ _ _ hx hy => ccmp_trans_gt hx hy) x.data y.data z.data h₁ h₂

theorem plcmp_swap (a b : List PreId) : (plcmp a b).swap = plcmp b a :=
  lexCmp_swap pcmp pcmp_swap a b

theorem plcmp_trans_gt {a b c : List PreId} (h₁ : plcmp a b = .gt) (h₂ : plcmp b c = .gt) :
    plcmp a c = .gt :=
  lexCmp_trans_gt pcmp pcmp_swap (fun _ _ h z => pcmp_congL h z)
    (fun _ _ _ hx hy => pcmp_trans_gt hx hy) a b c h₁ h₂

theorem preCmp_swap (a b : List PreId) : (preCmp a b).swap = preCmp b a := by
  cases a with
  | nil => cases b <;> rfl
  | cons p ps =>
    cases b with
    | nil => rfl
    | cons q qs => exact plcmp_swap (p :: ps) (q :: qs)

theorem preCmp_trans_gt {a b c : List PreId} (h₁ : preCmp a b = .gt) (h₂ : preCmp b c = .gt) :
    preCmp a c = .gt := by
  cases a with
  | nil =>
    cases b with
    | nil => exact absurd h₁ (by simp [preCmp])
    | cons q qs =>
      cases c with
      | nil => exact absurd h₂ (by simp [preCmp])
      | cons r rs => rfl
  | cons p ps =>
    cases b with
    | nil => exact absurd h₁ (by simp [preCmp])
    | cons q qs =>
      cases c with
      | nil => exact absurd h₂ (by simp [preCmp])
      | cons r rs => exact plcmp_trans_gt h₁ h₂

theorem semverCompare_swap (a b : SemVer) : (semverCompare a b).swap = semverCompare b a := by
  unfold semverCompare
  rw [ordThen_swap, ordThen_swap, ordThen_swap, Nat.compare_swap, Nat.compare_swap,
    Nat.compare_swap, preCmp_swap]

theorem semverCompare_gt_iff {a b : SemVer} :
    semverCompare a b = .gt ↔
      b.major < a.major ∨
        (a.major = b.major ∧
          (b.minor < a.minor ∨
            (a.minor = b.minor ∧
              (b.patch < a.patch ∨
                (a.patch = b.patch ∧ preCmp a.prerelease b.prerelease = .gt))))) := by
  unfold semverCompare
  rw [ordThen_eq_gt, ordThen_eq_gt, ordThen_eq_gt, Nat.compare_eq_gt, Nat.compare_eq_eq,
    Nat.compare_eq_gt, Nat.compare_eq_eq, Nat.compare_eq_gt, Nat.compare_eq_eq]

theorem semverCompare_trans_gt {a b c : SemVer} (h₁ : semverCompare a b = .gt)
    (h₂ : semverCompare b c = .gt) : semverCompare a c = .gt := by
  rw [semverCompare_gt_iff] at h₁ h₂ ⊢
  rcases h₁ with h₁ | ⟨e₁, h₁ | ⟨e₁m, h₁ | ⟨e₁p, h₁⟩⟩⟩ <;>
    rcases h₂ with h₂ | ⟨e₂, h₂ | ⟨e₂m, h₂ | ⟨e₂p, h₂⟩⟩⟩ <;>
    first
      | (left; omega)
      | (exact Or.inr ⟨by omega, Or.inl (by omega)⟩)
      | (exact Or.inr ⟨by omega, Or.inr ⟨by omega, Or.inl (by omega)⟩⟩)
      | (exact Or.inr ⟨by omega, Or.inr ⟨by omega, Or.inr ⟨by omega, preCmp_trans_gt h₁ h₂⟩⟩⟩)

theorem ccmp_refl (a : Char) : ccmp a a = .eq := Nat.compare_eq_eq.mpr rfl

theorem lexCmp_refl {α : Type} (cmp : α → α → Ordering) (hrefl : ∀ a, cmp a a = .eq) :
    ∀ l, lexCmp cmp l l = .eq := by
  intro l
  induction l with
  | nil => rfl
  | cons a as ih =>
    show ordThen (cmp a a) (lexCmp cmp as as) = .eq
    rw [hrefl a, ih]
    rfl

theorem pcmp_refl (a : PreId) : pcmp a a = .eq := by
  cases a with
  | num x => exact Nat.compare_eq_eq.mpr rfl
  | str x => exact lexCmp_refl ccmp ccmp_refl x.data

theorem preCmp_refl (a : List PreId) : preCmp a a = .eq := by
  cases a with
  | nil => rfl
  | cons p ps => exact lexCmp_refl pcmp pcmp_refl (p :: ps)

theorem semverCompare_refl (a : SemVer) : semverCompare a a = .eq := by
  unfold semverCompare
  rw [Nat.compare_eq_eq.mpr rfl, Nat.compare_eq_eq.mpr rfl, Nat.compare_eq_eq.mpr rfl,
    preCmp_refl]
  rfl

theorem preCmp_congL {a b : List PreId} (h : preCmp a b = .eq) (c : List PreId) :
    preCmp a c = preCmp b c := by
  cases a with
  | nil =>
    cases b with
    | nil => rfl
    | cons q qs => exact absurd h (by simp [preCmp])
  | cons p ps =>
    cases b with
    | nil => exact absurd h (by simp [preCmp])
    | cons q qs =>
      cases c with
      | nil => rfl
      | cons r rs =>
        show plcmp (p :: ps) (r :: rs) = plcmp (q :: qs) (r :: rs)
        exact lexCmp_congL pcmp (fun _ _ hh cc => pcmp_congL hh cc) _ _ h _

theorem semverCompare_eq_parts {a b : SemVer} (h : semverCompare a b = .eq) :
    a.major = b.major ∧ a.minor = b.minor ∧ a.patch = b.patch ∧
      preCmp a.prerelease b.prerelease = .eq := by
  unfold semverCompare at h
  rw [ordThen_eq_eq, ordThen_eq_eq, ordThen_eq_eq] at h
  exact ⟨Nat.compare_eq_eq.mp h.1, Nat.compare_eq_eq.mp h.2.1, Nat.compare_eq_eq.mp h.2.2.1,
    h.2.2.2⟩

theorem semverCompare_congL {a b : SemVer} (h : semverCompare a b = .eq) (c : SemVer) :
    semverCompare a c = semverCompare b c := by
  obtain ⟨h1, h2, h3, h4⟩ := semverCompare_eq_parts h
  unfold semverCompare
  rw [h1, h2, h3, preCmp_congL h4 c.prerelease]

theorem semverCompare_lt_swap {a b : SemVer} (h : semverCompare a b = .lt) :
    semverCompare b a = .gt := by
  have hs := semverCompare_swap a b
  rw [h] at hs
  exact hs.symm

theorem semverCompare_trans_notlt_gt {m v r : SemVer} (h₁ : semverCompare m v ≠ .lt)
    (h₂ : semverCompare v r = .gt) : semverCompare m r = .gt := by
  cases ho : semverCompare m v with
  | lt => exact absurd ho h₁
  | eq => rw [semverCompare_congL ho r]; exact h₂
  | gt => exact semverCompare_trans_gt ho h₂

/-! ## Behavior of the `maxSatisfying` scan -/

theorem semStep_none (p : String → Option SemVer) (acc : Option (String × SemVer)) (s : String)
    (h : p s = none) : semStep p acc s = acc := by
  unfold semStep
  rw [h]

theorem semStep_some_none (p : String → Option SemVer) (s : String) (v : SemVer)
    (h : p s = some v) : semStep p none s = some (s, v) := by
  unfold semStep
  rw [h]

theorem semStep_some_lt (p : String → Option SemVer) {s : String} {v m : SemVer} (t : String)
    (h : p s = some v) (hlt : semverCompare m v = .lt) :
    semStep p (some (t, m)) s = some (s, v) := by
  unfold semStep
  rw [h]
  simp [hlt]

theorem semStep_some_keep (p : String → Option SemVer) {s : String} {v m : SemVer} (t : String)
    (h : p s = some v) (hlt : semverCompare m v ≠ .lt) :
    semStep p (some (t, m)) s = some (t, m) := by
  unfold semStep
  rw [h]
  simp [hlt]

theorem semStep_foldl_mono (p : String → Option SemVer) :
    ∀ (l : List String) (t : String) (m : SemVer) (res : String × SemVer),
      l.foldl (semStep p) (some (t, m)) = some res → semverCompare m res.2 ≠ .gt := by
  intro l
  induction l with
  | nil =>
    intro t m res h
    simp only [List.foldl_nil, Option.some.injEq] at h
    rw [← h]
    rw [semverCompare_refl]
    simp
  | cons s rest ih =>
    intro t m res h
    simp only [List.foldl_cons] at h
    cases hp : p s with
    | none =>
      rw [semStep_none p _ s hp] at h
      exact ih t m res h
    | some v =>
      by_cases hlt : semverCompare m v = .lt
      · rw [semStep_some_lt p t hp hlt] at h
        have hv := ih s v res h
        intro hg
        exact hv (semverCompare_trans_gt (semverCompare_lt_swap hlt) hg)
      · rw [semStep_some_keep p t hp hlt] at h
        exact ih t m res h

theorem semMaxFold_max (p : String → Option SemVer) :
    ∀ (l : List String) (acc : Option (String × SemVer)) (res : String × SemVer),
      l.foldl (semStep p) acc = some res →
      ∀ s v, s ∈ l → p s = some v → semverCompare v res.2 ≠ .gt := by
  intro l
  induction l with
  | nil =>
    intro acc res _ s v hs
    simp at hs
  | cons a rest ih =>
    intro acc res h s v hs hp
    simp only [List.foldl_cons] at h
    rcases List.mem_cons.mp hs with rfl | hs2
    · cases acc with
      | none =>
        rw [semStep_some_none p s v hp] at h
        exact semStep_foldl_mono p rest _ _ res h
      | some pr =>
        obtain ⟨t, m⟩ := pr
        by_cases hlt : semverCompare m v = .lt
        · rw [semStep_some_lt p t hp hlt] at h
          exact semStep_foldl_mono p rest _ _ res h
        · rw [semStep_some_keep p t hp hlt] at h
          have hm := semStep_foldl_mono p rest _ _ res h
          intro hg
          exact hm (semverCompare_trans_notlt_gt hlt hg)
    · exact ih _ res h s v hs2 hp

theorem semMaxFold_origin (p : String → Option SemVer) :
    ∀ (l : List String) (acc : Option (String × SemVer)) (res : String × SemVer),
      l.foldl (semStep p) acc = some res →
      acc = some res ∨ (res.1 ∈ l ∧ p res.1 = some res.2) := by
  intro l
  induction l with
  | nil =>
    intro acc res h
    simp only [List.foldl_nil] at h
    exact Or.inl h
  | cons a rest ih =>
    intro acc res h
    simp only [List.foldl_cons] at h
    cases hp : p a with
    | none =>
      rw [semStep_none p _ a hp] at h
      rcases ih _ res h with h1 | h2
      · exact Or.inl h1
      · exact Or.inr ⟨List.mem_cons_of_mem a h2.1, h2.2⟩
    | some v =>
      cases acc with
      | none =>
        rw [semStep_some_none p a v hp] at h
        rcases ih _ res h with h1 | h2
        · cases h1
          exact Or.inr ⟨List.mem_cons_self a rest, hp⟩
        · exact Or.inr ⟨List.mem_cons_of_mem a h2.1, h2.2⟩
      | some pr =>
        obtain ⟨t, m⟩ := pr
        by_cases hlt : semverCompare m v = .lt
        · rw [semStep_some_lt p t hp hlt] at h
          rcases ih _ res h with h1 | h2
          · cases h1
            exact Or.inr ⟨List.mem_cons_self a rest, hp⟩
          · exact Or.inr ⟨List.mem_cons_of_mem a h2.1, h2.2⟩
        · rw [semStep_some_keep p t hp hlt] at h
          rcases ih _ res h with h1 | h2
          · exact Or.inl h1
          · exact Or.inr ⟨List.mem_cons_of_mem a h2.1, h2.2⟩

theorem semMaxFold_isSome (p : String → Option SemVer) :
    ∀ (l : List String) (acc : Option (String × SemVer)),
      (acc.isSome = true ∨ ∃ s ∈ l, (p s).isSome = true) →
      (l.foldl (semStep p) acc).isSome = true := by
  intro l
  induction l with
  | nil =>
    intro acc h
    simp only [List.foldl_nil]
    rcases h with h | ⟨s, hs, _⟩
    · exact h
    · simp at hs
  | cons a rest ih =>
    intro acc h
    simp only [List.foldl_cons]
    cases hp : p a with
    | none =>
      rw [semStep_none p _ a hp]
      apply ih
      rcases h with h | ⟨s, hs, hps⟩
      · exact Or.inl h
      · rcases List.mem_cons.mp hs with rfl | hs2
        · rw [hp] at hps
          simp at hps
        · exact Or.inr ⟨s, hs2, hps⟩
    | some v =>
      apply ih
      left
      cases acc with
      | none => rw [semStep_some_none p a v hp]; rfl
      | some pr =>
        obtain ⟨t, m⟩ := pr
        by_cases hlt : semverCompare m v = .lt
        · rw [semStep_some_lt p t hp hlt]; rfl
        · rw [semStep_some_keep p t hp hlt]; rfl

theorem semMaxFold_all_none (p : String → Option SemVer) :
    ∀ (l : List String) (acc : Option (String × SemVer)),
      (∀ s ∈ l, p s = none) → l.foldl (semStep p) acc = acc := by
  intro l
  induction l with
  | nil => intro acc _; rfl
  | cons a rest ih =>
    intro acc hall
    simp only [List.foldl_cons]
    rw [semStep_none p _ a (hall a (List.mem_cons_self a rest))]
    exact ih acc (fun s hs => hall s (List.mem_cons_of_mem a hs))

theorem semStep_foldl_asc (p : String → Option SemVer) :
    ∀ (l : List String) (t : String) (m : SemVer),
      (∀ s ∈ l, ∃ v, p s = some v ∧ semverCompare m v = .lt) →
      AscendingOn p l →
      (l = [] ∧ List.foldl (semStep p) (some (t, m)) l = some (t, m)) ∨
        (∃ s vs, l.getLast? = some s ∧ p s = some vs ∧
          List.foldl (semStep p) (some (t, m)) l = some (s, vs)) := by
  intro l
  induction l with
  | nil => intro t m _ _; exact Or.inl ⟨rfl, rfl⟩
  | cons a rest ih =>
    intro t m hall hasc
    right
    obtain ⟨v, hpv, hmv⟩ := hall a (List.mem_cons_self a rest)
    simp only [List.foldl_cons]
    rw [semStep_some_lt p t hpv hmv]
    have hallrest : ∀ s ∈ rest, ∃ w, p s = some w ∧ semverCompare v w = .lt := by
      intro s hs
      obtain ⟨w, hpw, _⟩ := hall s (List.mem_cons_of_mem a hs)
      exact ⟨w, hpw, (List.pairwise_cons.mp hasc).1 s hs v w hpv hpw⟩
    have hascrest : AscendingOn p rest := (List.pairwise_cons.mp hasc).2
    rcases ih a v hallrest hascrest with ⟨hrest, hfold⟩ | ⟨s, vs, hlast, hps, hfold⟩
    · subst hrest
      exact ⟨a, v, rfl, hpv, hfold⟩
    · refine ⟨s, vs, ?_, hps, hfold⟩
      cases rest with
      | nil => simp at hlast
      | cons b bs => rw [List.getLast?_cons_cons]; exact hlast

theorem maxSatisfyingStar_ascending (keys : List String)
    (hall : ∀ s ∈ keys, ∃ v, starFilter s = some v)
    (hasc : AscendingOn starFilter keys) :
    maxSatisfyingStar keys = keys.getLast? := by
  cases keys with
  | nil => rfl
  | cons a rest =>
    obtain ⟨v, hpv⟩ := hall a (List.mem_cons_self a rest)
    unfold maxSatisfyingStar semMaxFold
    simp only [List.foldl_cons]
    rw [semStep_some_none starFilter a v hpv]
    have hallrest : ∀ s ∈ rest, ∃ w, starFilter s = some w ∧ semverCompare v w = .lt := by
      intro s hs
      obtain ⟨w, hpw⟩ := hall s (List.mem_cons_of_mem a hs)
      exact ⟨w, hpw, (List.pairwise_cons.mp hasc).1 s hs v w hpv hpw⟩
    rcases semStep_foldl_asc starFilter rest a v hallrest (List.pairwise_cons.mp hasc).2 with
      ⟨hrest, hfold⟩ | ⟨s, vs, hlast, _, hfold⟩
    · subst hrest
      rw [hfold]
      rfl
    · rw [hfold]
      cases rest with
      | nil => simp at hlast
      | cons b bs =>
        rw [List.getLast?_cons_cons, hlast]
        rfl

/-! ## The lexicographic fallback `versions.sort().reverse()[0]` -/

theorem sorted_getLast?_max :
    ∀ (l : List String), List.Sorted (· ≤ ·) l →
      ∀ v ∈ l, ∀ m, l.getLast? = some m → v ≤ m := by
  intro l
  induction l with
  | nil => simp
  | cons a rest ih =>
    intro hs v hv m hm
    cases rest with
    | nil =>
      simp only [List.getLast?_singleton, Option.some.injEq] at hm
      simp only [List.mem_singleton] at hv
      rw [hv, hm]
    | cons b bs =>
      rw [List.getLast?_cons_cons] at hm
      rcases List.mem_cons.mp hv with rfl | hv2
      · have hmem : m ∈ b :: bs := List.mem_of_getLast?_eq_some hm
        exact (List.sorted_cons.mp hs).1 m hmem
      · exact ih (List.sorted_cons.mp hs).2 v hv2 m hm

theorem jsSortDescHead_spec (l : List String) (hne : l ≠ []) :
    ∃ m, jsSortDescHead l = some m ∧ m ∈ l ∧ ∀ v ∈ l, v ≤ m := by
  have hperm := List.perm_insertionSort (α := String) (· ≤ ·) l
  have hsorted := List.sorted_insertionSort (α := String) (· ≤ ·) l
  have hne2 : l.insertionSort (· ≤ ·) ≠ [] := by
    intro h0
    exact hne (List.Perm.eq_nil (h0 ▸ hperm).symm)
  obtain ⟨m, hm⟩ := List.getLast?_isSome.mpr hne2 |> Option.isSome_iff_exists.mp
  refine ⟨m, ?_, ?_, ?_⟩
  · unfold jsSortDescHead
    rw [List.head?_reverse]
    exact hm
  · exact hperm.mem_iff.mp (List.mem_of_getLast?_eq_some hm)
  · intro v hv
    exact sorted_getLast?_max _ hsorted v (hperm.mem_iff.mpr hv) m hm

/-! ## Frame lemmas for the resolver -/

theorem fetchAndCache_frame (env : Env) (repo : Repo) (entry : ParcaAssetEntry)
    (kind : AssetKind) (vm : ParcaManifestVersion) (effRef : String) (st : St) :
    ((fetchAndCache env repo entry kind vm effRef st).2).lockfile = st.lockfile ∧
    ((fetchAndCache env repo entry kind vm effRef st).2).config = st.config := by
  cases kind with
  | skill =>
    cases hd : repo.dirAt vm.path effRef with
    | none => simp [fetchAndCache, hd, addEvent]
    | some files =>
      cases hf : files.find? (fun f => toLowerStr f.1 == "skill.md") with
      | none => simp [fetchAndCache, hd, hf, addEvent]
      | some sf => simp [fetchAndCache, hd, hf, addEvent, writeDirectoryToCache]
  | prompt =>
    cases hfile : repo.fileAt vm.path effRef with
    | none => simp [fetchAndCache, hfile, addEvent]
    | some content => simp [fetchAndCache, hfile, addEvent, writeToCache]
  | instruction =>
    cases hfile : repo.fileAt vm.path effRef with
    | none => simp [fetchAndCache, hfile, addEvent]
    | some content => simp [fetchAndCache, hfile, addEvent, writeToCache]

theorem fetchAndCache_countP (env : Env) (repo : Repo) (entry : ParcaAssetEntry)
    (kind : AssetKind) (vm : ParcaManifestVersion) (effRef : String) (st : St)
    (q : Ev → Bool)
    (hqf : ∀ path ref, q (.contentFetchFile path ref) = false)
    (hqd : ∀ path ref, q (.contentFetchDir path ref) = false) :
    ((fetchAndCache env repo entry kind vm effRef st).2).events.countP q =
      st.events.countP q := by
  cases kind with
  | skill =>
    cases hd : repo.dirAt vm.path effRef with
    | none => simp [fetchAndCache, hd, addEvent, List.countP_append, hqd]
    | some files =>
      cases hf : files.find? (fun f => toLowerStr f.1 == "skill.md") with
      | none => simp [fetchAndCache, hd, hf, addEvent, List.countP_append, hqd]
      | some sf =>
        simp [fetchAndCache, hd, hf, addEvent, writeDirectoryToCache, List.countP_append, hqd]
  | prompt =>
    cases hfile : repo.fileAt vm.path effRef with
    | none => simp [fetchAndCache, hfile, addEvent, List.countP_append, hqf]
    | some content => simp [fetchAndCache, hfile, addEvent, writeToCache, List.countP_append, hqf]
  | instruction =>
    cases hfile : repo.fileAt vm.path effRef with
    | none => simp [fetchAndCache, hfile, addEvent, List.countP_append, hqf]
    | some content => simp [fetchAndCache, hfile, addEvent, writeToCache, List.countP_append, hqf]

theorem resolveAsset_countP (env : Env) (repo : Repo) (entry : ParcaAssetEntry)
    (manifest : ParcaManifest) (manifestRef : String) (allowUpdate : Bool) (st : St)
    (q : Ev → Bool)
    (hqf : ∀ path ref, q (.contentFetchFile path ref) = false)
    (hqd : ∀ path ref, q (.contentFetchDir path ref) = false)
    (hql : q .lockWrite = false) :
    ((resolveAsset env repo entry manifest manifestRef allowUpdate st).2).events.countP q =
      st.events.countP q := by
  cases h1 : lookupA manifest.assets entry.id with
  | none => simp [resolveAsset, h1]
  | some assetMeta =>
    cases h2 : lookupA assetMeta.versions entry.version with
    | none => simp [resolveAsset, h1, h2]
    | some versionMeta =>
      cases h3 : repo.resolveRef (effectiveRefOf versionMeta manifestRef) with
      | none => simp [resolveAsset, h1, h2, h3]
      | some commit =>
        cases h4 : fastPathHit env st entry assetMeta.kind commit allowUpdate with
        | some l => simp [resolveAsset, h1, h2, h3, h4]
        | none =>
          have hc := fetchAndCache_countP env repo entry assetMeta.kind versionMeta
            (effectiveRefOf versionMeta manifestRef) st q hqf hqd
          cases h5 : fetchAndCache env repo entry assetMeta.kind versionMeta
              (effectiveRefOf versionMeta manifestRef) st with
          | mk r st2 =>
            rw [h5] at hc
            cases r with
            | error e =>
              simp only [resolveAsset, h1, h2, h3, h4, h5]
              exact hc
            | ok trip =>
              obtain ⟨sha, cachedPath, content⟩ := trip
              cases h6 : findAsset st.lockfile entry.id entry.source with
              | none =>
                simp only [resolveAsset, h1, h2, h3, h4, h5, h6, finishResolve]
                rw [List.countP_append]
                simp [List.countP_cons, hql, hc]
              | some l =>
                simp only [resolveAsset, h1, h2, h3, h4, h5, h6]
                split
                · exact hc
                · simp only [finishResolve]
                  rw [List.countP_append]
                  simp [List.countP_cons, hql, hc]

theorem fetchAndCache_events_extend (env : Env) (repo : Repo) (entry : ParcaAssetEntry)
    (kind : AssetKind) (vm : ParcaManifestVersion) (effRef : String) (st : St) :
    ∃ tail, ((fetchAndCache env repo entry kind vm effRef st).2).events = st.events ++ tail := by
  cases kind with
  | skill =>
    cases hd : repo.dirAt vm.path effRef with
    | none =>
      exact ⟨[.contentFetchDir vm.path effRef], by simp [fetchAndCache, hd, addEvent]⟩
    | some files =>
      cases hf : files.find? (fun f => toLowerStr f.1 == "skill.md") with
      | none =>
        exact ⟨[.contentFetchDir vm.path effRef], by simp [fetchAndCache, hd, hf, addEvent]⟩
      | some sf =>
        exact ⟨[.contentFetchDir vm.path effRef],
          by simp [fetchAndCache, hd, hf, addEvent, writeDirectoryToCache]⟩
  | prompt =>
    cases hfile : repo.fileAt vm.path effRef with
    | none =>
      exact ⟨[.contentFetchFile vm.path effRef], by simp [fetchAndCache, hfile, addEvent]⟩
    | some content =>
      exact ⟨[.contentFetchFile vm.path effRef],
        by simp [fetchAndCache, hfile, addEvent, writeToCache]⟩
  | instruction =>
    cases hfile : repo.fileAt vm.path effRef with
    | none =>
      exact ⟨[.contentFetchFile vm.path effRef], by simp [fetchAndCache, hfile, addEvent]⟩
    | some content =>
      exact ⟨[.contentFetchFile vm.path effRef],
        by simp [fetchAndCache, hfile, addEvent, writeToCache]⟩

theorem resolveAsset_events_extend (env : Env) (repo : Repo) (entry : ParcaAssetEntry)
    (manifest : ParcaManifest) (manifestRef : String) (allowUpdate : Bool) (st : St) :
    ∃ tail,
      ((resolveAsset env repo entry manifest manifestRef allowUpdate st).2).events =
        st.events ++ tail := by
  cases h1 : lookupA manifest.assets entry.id with
  | none => exact ⟨[], by simp [resolveAsset, h1]⟩
  | some assetMeta =>
    cases h2 : lookupA assetMeta.versions entry.version with
    | none => exact ⟨[], by simp [resolveAsset, h1, h2]⟩
    | some versionMeta =>
      cases h3 : repo.resolveRef (effectiveRefOf versionMeta manifestRef) with
      | none => exact ⟨[], by simp [resolveAsset, h1, h2, h3]⟩
      | some commit =>
        cases h4 : fastPathHit env st entry assetMeta.kind commit allowUpdate with
        | some l => exact ⟨[], by simp [resolveAsset, h1, h2, h3, h4]⟩
        | none =>
          obtain ⟨tail, htail⟩ := fetchAndCache_events_extend env repo entry assetMeta.kind
            versionMeta (effectiveRefOf versionMeta manifestRef) st
          cases h5 : fetchAndCache env repo entry assetMeta.kind versionMeta
              (effectiveRefOf versionMeta manifestRef) st with
          | mk r st2 =>
            rw [h5] at htail
            cases r with
            | error e =>
              refine ⟨tail, ?_⟩
              simp only [resolveAsset, h1, h2, h3, h4, h5]
              exact htail
            | ok trip =>
              obtain ⟨sha, cachedPath, content⟩ := trip
              cases h6 : findAsset st.lockfile entry.id entry.source with
              | none =>
                refine ⟨tail ++ [.lockWrite], ?_⟩
                simp only [resolveAsset, h1, h2, h3, h4, h5, h6, finishResolve]
                rw [htail, List.append_assoc]
              | some l =>
                simp only [resolveAsset, h1, h2, h3, h4, h5, h6]
                split
                · exact ⟨tail, htail⟩
                · refine ⟨tail ++ [.lockWrite], ?_⟩
                  simp only [finishResolve]
                  rw [htail, List.append_assoc]

/-- Shared helper: when the manifest fetch and version selection succeed,
the config loads, and some config entry carries the requested asset id,
`install` without `force` returns the conflict sentinel and only the event
trace changes (one manifest fetch). -/
theorem install_conflict_sentinel (env : Env) (url assetId : String) (spec : VersionSpec)
    (st : St) (cfg : ParcaConfig) (rc : String) (m : ParcaManifest)
    (meta : ParcaManifestAsset) (ver : String) (e : ParcaAssetEntry)
    (hres : (env.repoOf url).resolveRef "main" = some rc)
    (hman : (env.repoOf url).manifestAt rc = some m)
    (hschema : m.schema ≠ "")
    (ha : lookupA m.assets assetId = some meta)
    (hsel : selectVersion (meta.versions.map (·.1)) spec = some ver)
    (hcfg : st.config = some cfg)
    (hvalid : validateConfig cfg = true)
    (hex : cfg.assets.find? (fun a => a.id == assetId) = some e) :
    install env url assetId spec false st =
      (.ok (.alreadyInstalled e ver),
        { st with events := st.events ++ [.manifestFetch (env.repoOf url).url rc] }) := by
  have hload : loadConfig { st with events := st.events ++
      [Ev.manifestFetch (env.repoOf url).url rc] } = .ok cfg := by
    simp [loadConfig, hcfg, hvalid]
  simp only [install, hres, fetchManifest, addEvent, hman, if_pos hschema, ha, hsel, hload, hex]
  simp

/-- C5: installing an asset whose id the consumer configuration already
declares, with `force = false`, returns the sentinel carrying the existing
entry and the newly selected version, and mutates nothing: the config
file, the lockfile and the cache of the final state equal the input ones
(only the event trace records the manifest fetch). -/
theorem c5_install_conflict_no_mutation (env : Env) (url assetId : String) (spec : VersionSpec)
    (st : St) (cfg : ParcaConfig) (rc : String) (m : ParcaManifest)
    (meta : ParcaManifestAsset) (ver : String) (e : ParcaAssetEntry)
    (hres : (env.repoOf url).resolveRef "main" = some rc)
    (hman : (env.repoOf url).manifestAt rc = some m)
    (hschema : m.schema ≠ "")
    (ha : lookupA m.assets assetId = some meta)
    (hsel : selectVersion (meta.versions.map (·.1)) spec = some ver)
    (hcfg : st.config = some cfg)
    (hvalid : validateConfig cfg = true)
    (hex : cfg.assets.find? (fun a => a.id == assetId) = some e) :
    (install env url assetId spec false st).1 = .ok (.alreadyInstalled e ver) ∧
    ((install env url assetId spec false st).2).config = st.config ∧
    ((install env url assetId spec false st).2).lockfile = st.lockfile ∧
    ((install env url assetId spec false st).2).cache = st.cache := by
  rw [install_conflict_sentinel env url assetId spec st cfg rc m meta ver e hres hman hschema
    ha hsel hcfg hvalid hex]
  exact ⟨rfl, rfl, rfl, rfl⟩

/-- Witness for C5 on the install fixture: asset `a` is already declared
(from source alias `s1`), so installing it again from `u5` reports the
conflict between `0.5.0` and the newly selected `1.0.0` and leaves the
config, lockfile and cache untouched. -/
theorem c5_witness :
    (install exEnv5 "u5" "a" .latest false exSt5).1 =
      .ok (.alreadyInstalled exExisting5 "1.0.0") ∧
    ((install exEnv5 "u5" "a" .latest false exSt5).2).config = exSt5.config ∧
    ((install exEnv5 "u5" "a" .latest false exSt5).2).lockfile = exSt5.lockfile ∧
    ((install exEnv5 "u5" "a" .latest false exSt5).2).cache = exSt5.cache :=
  c5_install_conflict_no_mutation exEnv5 "u5" "a" .latest exSt5 exCfg5 "c0" exManifest5
    { kind := .prompt, description := none
      versions := [("1.0.0", { ref := none, path := "p.md" })] }
    "1.0.0" exExisting5
    (by decide) (by decide) (by decide) (by decide) (by decide) (by decide) (by decide)
    (by decide)

/-- C10: the already-installed check of `install` matches on the asset id
alone: an entry with the requested id but any other source alias still
triggers the conflict sentinel; meanwhile `addAsset` keys replacement by
the `(id, source)` pair, so a forced install from a second source keeps
both entries, and the Ledger's `findAsset` also keys by the pair. -/
theorem c10_install_checks_id_only (env : Env) (url assetId : String) (spec : VersionSpec)
    (st : St) (cfg : ParcaConfig) (rc : String) (m : ParcaManifest)
    (meta : ParcaManifestAsset) (ver : String) (e : ParcaAssetEntry)
    (hres : (env.repoOf url).resolveRef "main" = some rc)
    (hman : (env.repoOf url).manifestAt rc = some m)
    (hschema : m.schema ≠ "")
    (ha : lookupA m.assets assetId = some meta)
    (hsel : selectVersion (meta.versions.map (·.1)) spec = some ver)
    (hcfg : st.config = some cfg)
    (hvalid : validateConfig cfg = true)
    (hex : cfg.assets.find? (fun a => a.id == assetId) = some e)
    (_hdiff : ∀ p ∈ cfg.sources, p.2.url = url → e.source ≠ p.1) :
    (install env url assetId spec false st).1 = .ok (.alreadyInstalled e ver) ∧
    (∀ (assets : List ParcaAssetEntry) (e1 e2 : ParcaAssetEntry),
      e1 ∈ assets → e1.id = e2.id → e1.source ≠ e2.source →
      e1 ∈ addAssetPure assets e2 ∧ e2 ∈ addAssetPure assets e2) ∧
    (∀ (lf : ParcaLockfile) (i s0 : String) (l : ParcaLockedAsset),
      findAsset lf i s0 = some l → l.id = i ∧ l.source = s0) := by
  refine ⟨?_, ?_, ?_⟩
  · rw [install_conflict_sentinel env url assetId spec st cfg rc m meta ver e hres hman hschema
      ha hsel hcfg hvalid hex]
  · intro assets e1 e2 h1 hid hsrc
    constructor
    · unfold addAssetPure
      exact List.mem_append_left _ (List.mem_filter.mpr ⟨h1, by simp [hsrc]⟩)
    · exact List.mem_append_right _ (List.mem_singleton.mpr rfl)
  · intro lf i s0 l hfind
    have := List.find?_some hfind
    simp only [Bool.and_eq_true, beq_iff_eq] at this
    exact this

/-- Witness for C10: the config declares `a` from alias `s1` while `u5`
is not registered under `s1`; install without force still reports the
conflict, and `addAsset` keeps both the `(a, s1)` and `(a, derived)`
entries. -/
theorem c10_witness :
    (install exEnv5 "u5" "a" .latest false exSt5).1 =
      .ok (.alreadyInstalled exExisting5 "1.0.0") ∧
    (exExisting5 ∈ addAssetPure [exExisting5]
        { id := "a", source := "derived", version := "1.0.0", mapping := none } ∧
      ({ id := "a", source := "derived", version := "1.0.0", mapping := none } :
          ParcaAssetEntry) ∈ addAssetPure [exExisting5]
        { id := "a", source := "derived", version := "1.0.0", mapping := none }) := by
  obtain ⟨h1, h2, _⟩ := c10_install_checks_id_only exEnv5 "u5" "a" .latest exSt5 exCfg5 "c0"
    exManifest5
    { kind := .prompt, description := none
      versions := [("1.0.0", { ref := none, path := "p.md" })] }
    "1.0.0" exExisting5
    (by decide) (by decide) (by decide) (by decide) (by decide) (by decide) (by decide)
    (by decide) (by decide)
  exact ⟨h1, h2 [exExisting5] exExisting5
    { id := "a", source := "derived", version := "1.0.0", mapping := none }
    (List.mem_singleton.mpr rfl) rfl (by decide)⟩

theorem processAsset_mfetch_count (env : Env) (url : String) (lf0 : ParcaLockfile)
    (asset : ParcaAssetEntry) (st : St) :
    ((processAsset env url lf0 asset st).2).events.countP isManifestFetch =
      st.events.countP isManifestFetch + 1 := by
  have hstep : (addEvent st
      (.manifestFetch (env.repoOf url).url (manifestRefFor lf0 asset))).events.countP
        isManifestFetch = st.events.countP isManifestFetch + 1 := by
    simp [addEvent, List.countP_append, isManifestFetch]
  cases hma : (env.repoOf url).manifestAt (manifestRefFor lf0 asset) with
  | none =>
    simp only [processAsset, fetchManifest, hma]
    exact hstep
  | some m =>
    by_cases hs : m.schema ≠ ""
    · simp only [processAsset, fetchManifest, hma, if_pos hs]
      rw [resolveAsset_countP env (env.repoOf url) asset m (manifestRefFor lf0 asset) false _
        isManifestFetch (fun _ _ => rfl) (fun _ _ => rfl) rfl]
      exact hstep
    · simp only [processAsset, fetchManifest, hma, if_neg hs]
      exact hstep

theorem processAssetsLoop_mfetch_count (env : Env) (url : String) (lf0 : ParcaLockfile) :
    ∀ (assets : List ParcaAssetEntry) (st : St),
      ((processAssetsLoop env url lf0 assets st).2).events.countP isManifestFetch =
        st.events.countP isManifestFetch + assets.length := by
  intro assets
  induction assets with
  | nil => intro st; simp [processAssetsLoop]
  | cons a rest ih =>
    intro st
    have hone := processAsset_mfetch_count env url lf0 a st
    cases hpa : processAsset env url lf0 a st with
    | mk r st2 =>
      rw [hpa] at hone
      cases r with
      | ok res =>
        simp only [processAssetsLoop, hpa]
        cases hloop : processAssetsLoop env url lf0 rest st2 with
        | mk rs st3 =>
          have := ih st2
          rw [hloop] at this
          simp only [this, hone, List.length_cons]
          omega
      | error e =>
        simp only [processAssetsLoop, hpa]
        rw [ih st2, hone, List.length_cons]
        omega

/-! ## Association-list lemmas for the publisher -/

theorem lookupA_append_left {α : Type} (l1 l2 : List (String × α)) (k : String) (v : α)
    (h : lookupA l1 k = some v) : lookupA (l1 ++ l2) k = some v := by
  unfold lookupA at h ⊢
  cases hf : l1.find? (fun p => p.1 == k) with
  | none => rw [hf] at h; cases h
  | some p =>
    rw [hf] at h
    rw [List.find?_append, hf]
    exact h

theorem lookupA_append_right {α : Type} (l1 l2 : List (String × α)) (k : String)
    (h : lookupA l1 k = none) : lookupA (l1 ++ l2) k = lookupA l2 k := by
  unfold lookupA at h ⊢
  cases hf : l1.find? (fun p => p.1 == k) with
  | none => rw [List.find?_append, hf]; rfl
  | some p => rw [hf] at h; cases h

theorem lookupA_map_replace {α : Type} (k : String) (v : α) :
    ∀ l : List (String × α), (lookupA l k).isSome = true →
      lookupA (l.map (fun p => if p.1 == k then (p.1, v) else p)) k = some v := by
  intro l
  induction l with
  | nil => intro h; simp [lookupA] at h
  | cons a rest ih =>
    intro h
    by_cases ha : a.1 == k
    · simp [lookupA, List.find?, ha]
    · have h2 : (lookupA rest k).isSome = true := by
        simpa [lookupA, List.find?, ha] using h
      have := ih h2
      simpa [lookupA, List.find?, ha] using this

theorem lookupA_upsertA_self {α : Type} (l : List (String × α)) (k : String) (v : α) :
    lookupA (upsertA l k v) k = some v := by
  unfold upsertA
  by_cases hs : (lookupA l k).isSome = true
  · rw [if_pos hs]
    exact lookupA_map_replace k v l hs
  · rw [if_neg hs]
    have hnone : lookupA l k = none := by
      cases hl : lookupA l k with
      | none => rfl
      | some w => rw [hl] at hs; simp at hs
    rw [lookupA_append_right l _ k hnone]
    simp [lookupA, List.find?]

theorem lookupA_setRefAt_self (l : List (String × ParcaManifestVersion)) (k c : String)
    (meta : ParcaManifestVersion) (h : lookupA l k = some meta) :
    lookupA (setRefAt l k c) k = some { meta with ref := some c } := by
  induction l with
  | nil => simp [lookupA] at h
  | cons a rest ih =>
    by_cases ha : a.1 == k
    · have : a.2 = meta := by
        simpa [lookupA, List.find?, ha] using h
      subst this
      simp [setRefAt, lookupA, List.find?, ha]
    · have h2 : lookupA rest k = some meta := by
        simpa [lookupA, List.find?, ha] using h
      have := ih h2
      simpa [setRefAt, lookupA, List.find?, ha] using this

theorem lookupA_setRefAt_none (l : List (String × ParcaManifestVersion)) (k c k' : String)
    (h : lookupA l k' = none) : lookupA (setRefAt l k c) k' = none := by
  induction l with
  | nil => rfl
  | cons a rest ih =>
    by_cases ha : a.1 == k'
    · simp [lookupA, List.find?, ha] at h
    · have h2 : lookupA rest k' = none := by
        simpa [lookupA, List.find?, ha] using h
      have := ih h2
      by_cases hk : a.1 == k
      · simpa [setRefAt, lookupA, List.find?, hk, ha] using this
      · simpa [setRefAt, lookupA, List.find?, hk, ha] using this

theorem previousVersionOf_nil : previousVersionOf [] = none := by decide

theorem setRefAt_keys (l : List (String × ParcaManifestVersion)) (k c : String) :
    (setRefAt l k c).map (·.1) = l.map (·.1) := by
  unfold setRefAt
  rw [List.map_map]
  apply List.map_congr_left
  intro p _
  by_cases h : p.1 = k <;> simp [h]

theorem checkpointVersions_lookup_none (versions : List (String × ParcaManifestVersion))
    (head : Option String) (k : String) (h : lookupA versions k = none) :
    lookupA (checkpointVersions versions head) k = none := by
  unfold checkpointVersions
  dsimp only
  split
  · split
    · exact h
    · split
      · exact h
      · split
        · split
          · exact lookupA_setRefAt_none _ _ _ _ h
          · exact h
        · exact h
  · exact h

theorem checkpointVersions_applies (versions : List (String × ParcaManifestVersion))
    (c prev : String) (pm : ParcaManifestVersion)
    (hprev : previousVersionOf ((versions.map (·.1)).filter
      (fun v => (parseSemVer v).isSome)) = some prev)
    (hpm : lookupA versions prev = some pm)
    (href : pm.ref = none) :
    checkpointVersions versions (some c) = setRefAt versions prev c := by
  have hne : ((versions.map (·.1)).filter (fun v => (parseSemVer v).isSome)).length > 0 := by
    cases hE : (versions.map (·.1)).filter (fun v => (parseSemVer v).isSome) with
    | nil =>
      rw [hE, previousVersionOf_nil] at hprev
      cases hprev
    | cons a rest => simp
  unfold checkpointVersions
  dsimp only
  rw [if_pos hne]
  simp only [hprev, hpm]
  rw [if_pos href]

theorem checkpointVersions_skips (versions : List (String × ParcaManifestVersion))
    (head : Option String) (prev : String) (pm : ParcaManifestVersion) (r : String)
    (hprev : previousVersionOf ((versions.map (·.1)).filter
      (fun v => (parseSemVer v).isSome)) = some prev)
    (hpm : lookupA versions prev = some pm)
    (href : pm.ref = some r) :
    checkpointVersions versions head = versions := by
  have hne : ((versions.map (·.1)).filter (fun v => (parseSemVer v).isSome)).length > 0 := by
    cases hE : (versions.map (·.1)).filter (fun v => (parseSemVer v).isSome) with
    | nil =>
      rw [hE, previousVersionOf_nil] at hprev
      cases hprev
    | cons a rest => simp
  unfold checkpointVersions
  dsimp only
  rw [if_pos hne]
  simp only [hprev, hpm]
  rw [if_neg (by simp [href])]

/-! ## Rolling-version invariant machinery -/

theorem unpinned_length_le_one :
    ∀ vs, allButLastPinned vs = true → (unpinnedVersions vs).length ≤ 1 := by
  intro vs
  induction vs with
  | nil => intro _; simp [unpinnedVersions]
  | cons p rest ih =>
    intro h
    cases rest with
    | nil =>
      cases hr : p.2.ref.isNone <;> simp [unpinnedVersions, List.filter, hr]
    | cons q rest2 =>
      obtain ⟨hp, hrest⟩ : p.2.ref.isSome = true ∧ allButLastPinned (q :: rest2) = true := by
        simpa [allButLastPinned] using h
      have hrec := ih hrest
      have hnone : p.2.ref.isNone = false := by
        cases ho : p.2.ref <;> simp [ho] at hp ⊢
      simpa [unpinnedVersions, List.filter, hnone] using hrec

theorem unpinned_mem_last :
    ∀ vs, allButLastPinned vs = true → ∀ u ∈ unpinnedVersions vs,
      (versionKeys vs).getLast? = some u := by
  intro vs
  induction vs with
  | nil => intro _ u hu; simp [unpinnedVersions] at hu
  | cons p rest ih =>
    intro h u hu
    cases rest with
    | nil =>
      cases hr : p.2.ref.isNone with
      | true =>
        simp [unpinnedVersions, List.filter, hr] at hu
        simp [versionKeys, hu]
      | false => simp [unpinnedVersions, List.filter, hr] at hu
    | cons q rest2 =>
      obtain ⟨hp, hrest⟩ : p.2.ref.isSome = true ∧ allButLastPinned (q :: rest2) = true := by
        simpa [allButLastPinned] using h
      have hnone : p.2.ref.isNone = false := by
        cases ho : p.2.ref <;> simp [ho] at hp ⊢
      have hu2 : u ∈ unpinnedVersions (q :: rest2) := by
        simpa [unpinnedVersions, List.filter, hnone] using hu
      have := ih hrest u hu2
      simpa [versionKeys] using this

theorem unpinned_sub_keys (vs : List (String × ParcaManifestVersion)) (u : String)
    (hu : u ∈ unpinnedVersions vs) : u ∈ versionKeys vs := by
  unfold unpinnedVersions at hu
  unfold versionKeys
  obtain ⟨p, hp, hpu⟩ := List.mem_map.mp hu
  exact List.mem_map.mpr ⟨p, (List.mem_filter.mp hp).1, hpu⟩

theorem asc_getLast_max (p : String → Option SemVer) :
    ∀ l, AscendingOn p l → ∀ u, l.getLast? = some u → ∀ k ∈ l, k ≠ u →
      ∀ vk vu, p k = some vk → p u = some vu → semverCompare vk vu = .lt := by
  intro l
  induction l with
  | nil => intro _ u hu; simp at hu
  | cons a rest ih =>
    intro hasc u hu k hk hne vk vu hvk hvu
    cases rest with
    | nil =>
      simp only [List.getLast?_singleton, Option.some.injEq] at hu
      simp only [List.mem_singleton] at hk
      exact absurd (hk.trans hu) hne
    | cons b bs =>
      rw [List.getLast?_cons_cons] at hu
      rcases List.mem_cons.mp hk with rfl | hk2
      · have humem : u ∈ b :: bs := List.mem_of_getLast?_eq_some hu
        exact (List.pairwise_cons.mp hasc).1 u humem vk vu hvk hvu
      · exact ih (List.pairwise_cons.mp hasc).2 u hu k hk2 hne vk vu hvk hvu

theorem asc_keys_nodup (p : String → Option SemVer) (l : List String)
    (hall : ∀ s ∈ l, (p s).isSome = true) (hasc : AscendingOn p l) : l.Nodup := by
  unfold AscendingOn at hasc
  refine List.Pairwise.imp_of_mem ?_ hasc
  intro a b ha _ hrel
  obtain ⟨va, hva⟩ := Option.isSome_iff_exists.mp (hall a ha)
  intro hab
  subst hab
  have := hrel va va hva hva
  rw [semverCompare_refl] at this
  cases this

theorem lookupA_eq_none_of_not_mem {α : Type} (l : List (String × α)) (k : String)
    (h : k ∉ l.map (·.1)) : lookupA l k = none := by
  unfold lookupA
  rw [List.find?_eq_none.mpr]
  intro p hp
  simp only [beq_iff_eq]
  intro hk
  exact h (List.mem_map.mpr ⟨p, hp, hk⟩)

theorem lookupA_getLast_of_nodup :
    ∀ vs : List (String × ParcaManifestVersion), (versionKeys vs).Nodup →
      ∀ pl, vs.getLast? = some pl → lookupA vs pl.1 = some pl.2 := by
  intro vs
  induction vs with
  | nil => intro _ pl h; simp at h
  | cons p rest ih =>
    intro hnd pl hl
    cases rest with
    | nil =>
      simp only [List.getLast?_singleton, Option.some.injEq] at hl
      subst hl
      simp [lookupA, List.find?]
    | cons q rest2 =>
      rw [List.getLast?_cons_cons] at hl
      have hplmem : pl ∈ q :: rest2 := List.mem_of_getLast?_eq_some hl
      have hkeys : pl.1 ∈ versionKeys (q :: rest2) :=
        List.mem_map.mpr ⟨pl, hplmem, rfl⟩
      have hnd2 : (p.1 :: versionKeys (q :: rest2)).Nodup := by
        simpa [versionKeys] using hnd
      have hne : p.1 ≠ pl.1 := by
        intro he
        exact (List.nodup_cons.mp hnd2).1 (by rw [he]; exact hkeys)
      have := ih (List.nodup_cons.mp hnd2).2 pl hl
      simpa [lookupA, List.find?, show (p.1 == pl.1) = false from beq_eq_false_iff_ne.mpr hne]
        using this

theorem checkpointVersions_keys (versions : List (String × ParcaManifestVersion))
    (head : Option String) :
    versionKeys (checkpointVersions versions head) = versionKeys versions := by
  unfold checkpointVersions
  dsimp only
  split
  · split
    · rfl
    · split
      · rfl
      · split
        · split
          · exact setRefAt_keys ..
          · rfl
        · rfl
  · rfl

theorem allButLastPinned_append (l : List (String × ParcaManifestVersion))
    (x : String × ParcaManifestVersion)
    (h : ∀ q ∈ l, q.2.ref.isSome = true) : allButLastPinned (l ++ [x]) = true := by
  induction l with
  | nil => rfl
  | cons p rest ih =>
    have hrec := ih (fun q hq => h q (List.mem_cons_of_mem p hq))
    cases hrx : rest ++ [x] with
    | nil => exact absurd hrx (by simp)
    | cons q rest2 =>
      show allButLastPinned (p :: (rest ++ [x])) = true
      rw [hrx]
      show (p.2.ref.isSome && allButLastPinned (q :: rest2)) = true
      rw [h p (List.mem_cons_self p rest), ← hrx, hrec]
      rfl

theorem allPinned_of_lastPinned :
    ∀ vs, allButLastPinned vs = true → ∀ pl, vs.getLast? = some pl →
      pl.2.ref.isSome = true → ∀ q ∈ vs, q.2.ref.isSome = true := by
  intro vs
  induction vs with
  | nil => intro _ pl h; simp at h
  | cons p rest ih =>
    intro hpin pl hl hpl q hq
    cases rest with
    | nil =>
      simp only [List.getLast?_singleton, Option.some.injEq] at hl
      subst hl
      simp only [List.mem_singleton] at hq
      subst hq
      exact hpl
    | cons r rest2 =>
      rw [List.getLast?_cons_cons] at hl
      obtain ⟨hp, hrest⟩ : p.2.ref.isSome = true ∧ allButLastPinned (r :: rest2) = true := by
        simpa [allButLastPinned] using hpin
      rcases List.mem_cons.mp hq with rfl | hq2
      · exact hp
      · exact ih hrest pl hl hpl q hq2

theorem setRefAt_last_all_pinned :
    ∀ vs, allButLastPinned vs = true → ∀ pl, vs.getLast? = some pl → ∀ c,
      ∀ q ∈ setRefAt vs pl.1 c, q.2.ref.isSome = true := by
  intro vs
  induction vs with
  | nil => intro _ pl h; simp at h
  | cons p rest ih =>
    intro hpin pl hl c q hq
    cases rest with
    | nil =>
      simp only [List.getLast?_singleton, Option.some.injEq] at hl
      subst hl
      simp only [setRefAt, List.map_cons, List.map_nil, beq_self_eq_true, if_true,
        List.mem_singleton] at hq
      subst hq
      rfl
    | cons r rest2 =>
      rw [List.getLast?_cons_cons] at hl
      obtain ⟨hp, hrest⟩ : p.2.ref.isSome = true ∧ allButLastPinned (r :: rest2) = true := by
        simpa [allButLastPinned] using hpin
      rcases List.mem_cons.mp hq with rfl | hq2
      · by_cases hk : p.1 = pl.1 <;> simp [hk, hp]
      · exact ih hrest pl hl c q hq2

theorem starFilter_isSome_parse (s : String) (h : (starFilter s).isSome = true) :
    (parseSemVer s).isSome = true := by
  unfold starFilter at h
  cases hp : parseSemVer s with
  | none => rw [hp] at h; simp at h
  | some v => rfl

/-- All existing versions valid, non-prerelease and strictly ascending,
the new version strictly above them all: `publishVersion` succeeds, the
keys gain the new version at the end, and all but the new (last) version
carry a ref. -/
theorem publish_step_preserves (m : ParcaManifest) (assetId v path : String) (kind : AssetKind)
    (c : String)
    (hpin : allButLastPinned (assetVersions m assetId) = true)
    (hvalkeys : ∀ k ∈ versionKeys (assetVersions m assetId), (starFilter k).isSome = true)
    (hvalv : (starFilter v).isSome = true)
    (hasc : AscendingOn starFilter (versionKeys (assetVersions m assetId)))
    (hgt : ∀ k ∈ versionKeys (assetVersions m assetId), ∀ vk vv, starFilter k = some vk →
      starFilter v = some vv → semverCompare vk vv = .lt) :
    ∃ m2, publishVersion m assetId v path kind (some c) = .ok m2 ∧
      versionKeys (assetVersions m2 assetId) = versionKeys (assetVersions m assetId) ++ [v] ∧
      allButLastPinned (assetVersions m2 assetId) = true := by
  obtain ⟨vv, hvv⟩ := Option.isSome_iff_exists.mp hvalv
  have hnotmem : v ∉ versionKeys (assetVersions m assetId) := by
    intro hmem
    have h1 := hgt v hmem vv vv hvv hvv
    have h2 := semverCompare_refl vv
    exact absurd (h2.symm.trans h1) (by decide)
  have hlook : lookupA (assetVersions m assetId) v = none :=
    lookupA_eq_none_of_not_mem _ v (by simpa [versionKeys] using hnotmem)
  have hallpinned : ∀ q ∈ checkpointVersions (assetVersions m assetId) (some c),
      q.2.ref.isSome = true := by
    cases hvs : assetVersions m assetId with
    | nil =>
      intro q hq
      rw [show checkpointVersions [] (some c) = [] from rfl] at hq
      simp at hq
    | cons p0 rest0 =>
      rw [← hvs]
      have hne : assetVersions m assetId ≠ [] := by rw [hvs]; simp
      obtain ⟨pl, hpl⟩ := Option.isSome_iff_exists.mp (List.getLast?_isSome.mpr hne)
      have hklast : (versionKeys (assetVersions m assetId)).getLast? = some pl.1 := by
        unfold versionKeys
        rw [List.getLast?_map, hpl]
        rfl
      have hfilter : ((assetVersions m assetId).map (·.1)).filter
          (fun x => (parseSemVer x).isSome) = versionKeys (assetVersions m assetId) := by
        refine List.filter_eq_self.mpr ?_
        intro k hk
        exact starFilter_isSome_parse k (hvalkeys k hk)
      have hmaxstar : maxSatisfyingStar (versionKeys (assetVersions m assetId)) = some pl.1 := by
        rw [maxSatisfyingStar_ascending _ (fun s hs =>
          Option.isSome_iff_exists.mp (hvalkeys s hs)) hasc]
        exact hklast
      have hprev : previousVersionOf (((assetVersions m assetId).map (·.1)).filter
          (fun x => (parseSemVer x).isSome)) = some pl.1 := by
        rw [hfilter]
        unfold previousVersionOf
        rw [hmaxstar]
      have hnodup : (versionKeys (assetVersions m assetId)).Nodup :=
        asc_keys_nodup starFilter _ hvalkeys hasc
      have hlookpl : lookupA (assetVersions m assetId) pl.1 = some pl.2 :=
        lookupA_getLast_of_nodup _ hnodup pl hpl
      cases href : pl.2.ref with
      | none =>
        rw [checkpointVersions_applies _ c pl.1 pl.2 hprev hlookpl href]
        exact setRefAt_last_all_pinned _ hpin pl hpl c
      | some r =>
        rw [checkpointVersions_skips _ (some c) pl.1 pl.2 r hprev hlookpl href]
        exact allPinned_of_lastPinned _ hpin pl hpl (by rw [href]; rfl)
  cases hma : lookupA m.assets assetId with
  | some a0 =>
    have hvs : assetVersions m assetId = a0.versions := by simp [assetVersions, hma]
    rw [hvs] at hlook hallpinned
    have h2 : assetVersions (⟨m.schema, upsertA m.assets assetId
        ⟨a0.kind, a0.description, checkpointVersions a0.versions (some c) ++
          [(v, ⟨none, path⟩)]⟩⟩ : ParcaManifest) assetId =
        checkpointVersions a0.versions (some c) ++ [(v, ⟨none, path⟩)] := by
      simp [assetVersions, lookupA_upsertA_self]
    refine ⟨⟨m.schema, upsertA m.assets assetId
      ⟨a0.kind, a0.description, checkpointVersions a0.versions (some c) ++
        [(v, ⟨none, path⟩)]⟩⟩, ?_, ?_, ?_⟩
    · simp only [publishVersion, hma, hlook]
    · rw [h2, hvs]
      unfold versionKeys
      rw [List.map_append]
      rw [show (checkpointVersions a0.versions (some c)).map (·.1) =
        versionKeys (checkpointVersions a0.versions (some c)) from rfl]
      rw [checkpointVersions_keys]
      rfl
    · rw [h2]
      exact allButLastPinned_append _ _ hallpinned
  | none =>
    have hvs : assetVersions m assetId = [] := by simp [assetVersions, hma]
    rw [hvs] at hallpinned
    have h2 : assetVersions (⟨m.schema, upsertA m.assets assetId
        ⟨kind, none, checkpointVersions [] (some c) ++ [(v, ⟨none, path⟩)]⟩⟩ :
          ParcaManifest) assetId =
        checkpointVersions [] (some c) ++ [(v, ⟨none, path⟩)] := by
      simp [assetVersions, lookupA_upsertA_self]
    refine ⟨⟨m.schema, upsertA m.assets assetId
      ⟨kind, none, checkpointVersions [] (some c) ++ [(v, ⟨none, path⟩)]⟩⟩, ?_, ?_, ?_⟩
    · simp only [publishVersion, hma]
      rfl
    · rw [h2, hvs]
      rfl
    · rw [h2]
      exact allButLastPinned_append _ _ hallpinned

/-! ## Concrete evaluations checking the embedding -/

example :
    resolveAsset exEnv1 exRepo1 exEntry1 exManifest1 "main" false exSt1 =
      (.error (.integrityMismatch "a" "1.0.0" "OLD" "NEW"),
        { config := none
          lockfile := { assets := [exLocked1] }
          cache := [(("s", "a", "1.0.0"), .file "NEW")]
          events := [.contentFetchFile "p.md" "tag1"] }) := by decide

example :
    ((resolveAll exEnv8 exSt8).2.events.countP (isManifestFetchTo "u8")) = 2 := by decide

example :
    (resolveAll exEnv8 exSt8).2.events =
      [.manifestFetch "u8" "main", .contentFetchFile "x.md" "main", .lockWrite,
       .manifestFetch "u8" "main", .contentFetchFile "y.md" "main", .lockWrite] := by decide

example :
    publishVersion exManifest6 "a" "1.1.0" "p2" .prompt (some "h") =
      .ok { schema := "1.0"
            assets :=
              [("a", { kind := .prompt, description := none
                       versions :=
                         [("0.9.0", { ref := none, path := "p0" }),
                          ("1.0.0", { ref := some "c0", path := "p1" }),
                          ("1.1.0", { ref := none, path := "p2" })] })] } := by decide

example :
    publishSeq exEmptyManifest "a" [("2.0.0", "p"), ("1.0.0", "p"), ("1.5.0", "p")] .prompt
        (some "h") =
      .ok { schema := "1.0"
            assets :=
              [("a", { kind := .prompt, description := none
                       versions :=
                         [("2.0.0", { ref := some "h", path := "p" }),
                          ("1.0.0", { ref := none, path := "p" }),
                          ("1.5.0", { ref := none, path := "p" })] })] } := by decide

example :
    install exEnv5 "u5" "a" .latest false exSt5 =
      (.ok (.alreadyInstalled exExisting5 "1.0.0"),
        { exSt5 with events := [.manifestFetch "u5" "c0"] }) := by decide

example :
    (install exEnv5 "u5" "a" .latest true exSt5).2.config =
      some
        { schema := "1.0"
          sources :=
            [("s1", { provider := .github, url := "other" }),
             ("derived", { provider := .github, url := "u5" })]
          assets :=
            [exExisting5,
             { id := "a", source := "derived", version := "1.0.0"
               mapping := some ".github/prompts/a.prompt.md" }] } := by decide

example :
    resolveAsset exEnv3 exRepo3 exEntry1 exManifest3 "c1" false exSt3 =
      (.ok
        { id := "a", version := "1.0.0", source := "s", commit := "c1", sha256 := "BODY"
          content := "BODY", cachePath := "s/a/1.0.0/a.md", mapping := none }, exSt3) := by decide

example : parseSemVer "1.0.0" = some ⟨1, 0, 0, []⟩ := by decide

example : parseSemVer "1.0.0-alpha" = some ⟨1, 0, 0, [.str "alpha"]⟩ := by decide

example : parseSemVer "01.0.0" = none := by decide

example : parseSemVer "v2.3.4" = some ⟨2, 3, 4, []⟩ := by decide

example : maxSatisfyingStar ["1.0.0-alpha", "0.9.0"] = some "0.9.0" := by decide

example : maxSatisfyingStar ["1.0.0-alpha"] = none := by decide

example : selectVersion ["1.0.0-alpha", "0.9.0"] .latest = some "0.9.0" := by decide

example : selectVersion ["1.0.0-alpha"] .latest = some "1.0.0-alpha" := by decide

example : normalize "a\r\nb" = "a\nb" := by decide

example : normalize "a\r\r\n" = "a\r\n" := by decide

/-! ## Claim theorems -/

/-- C1: when the Ledger already records a (non-empty) sha256 for the
`(id, source)` pair, resolveAsset takes the slow path (the fast-path guard
misses), the freshly computed content hash differs from the recorded one
and `allowUpdate` is false, then the call fails with `IntegrityMismatch`
and the persisted lockfile is left exactly at its previous value: the
error state `st2` is the post-fetch state, whose lockfile equals the
input lockfile. -/
theorem c1_integrity_mismatch_preserves_ledger (env : Env) (repo : Repo)
    (entry : ParcaAssetEntry) (manifest : ParcaManifest) (manifestRef : String) (st : St)
    (assetMeta : ParcaManifestAsset) (versionMeta : ParcaManifestVersion) (commit : String)
    (l : ParcaLockedAsset) (sha cachedPath content : String) (st2 : St)
    (h1 : lookupA manifest.assets entry.id = some assetMeta)
    (h2 : lookupA assetMeta.versions entry.version = some versionMeta)
    (h3 : repo.resolveRef (effectiveRefOf versionMeta manifestRef) = some commit)
    (h4 : findAsset st.lockfile entry.id entry.source = some l)
    (h5 : l.sha256 ≠ "")
    (h6 : fastPathHit env st entry assetMeta.kind commit false = none)
    (h7 : fetchAndCache env repo entry assetMeta.kind versionMeta
        (effectiveRefOf versionMeta manifestRef) st = (.ok (sha, cachedPath, content), st2))
    (h8 : l.sha256 ≠ sha) :
    resolveAsset env repo entry manifest manifestRef false st =
      (.error (.integrityMismatch entry.id entry.version l.sha256 sha), st2) ∧
    st2.lockfile = st.lockfile := by
  constructor
  · simp only [resolveAsset, h1, h2, h3, h4, h6, h7]
    rw [if_pos ⟨h5, h8, by trivial⟩]
  · have hfr := fetchAndCache_frame env repo entry assetMeta.kind versionMeta
      (effectiveRefOf versionMeta manifestRef) st
    rw [h7] at hfr
    exact hfr.1

/-- Witness for C1 on the concrete mismatch fixture: the locked hash is
`OLD`, the refetched content hashes to `NEW`, resolution fails with
`IntegrityMismatch` and the lockfile still holds the `OLD` record. -/
theorem c1_witness :
    resolveAsset exEnv1 exRepo1 exEntry1 exManifest1 "main" false exSt1 =
      (.error (.integrityMismatch "a" "1.0.0" "OLD" "NEW"),
        { config := none
          lockfile := { assets := [exLocked1] }
          cache := [(("s", "a", "1.0.0"), .file "NEW")]
          events := [.contentFetchFile "p.md" "tag1"] }) ∧
    ({ config := none
       lockfile := { assets := [exLocked1] }
       cache := [(("s", "a", "1.0.0"), .file "NEW")]
       events := [.contentFetchFile "p.md" "tag1"] } : St).lockfile = exSt1.lockfile := by
  exact c1_integrity_mismatch_preserves_ledger exEnv1 exRepo1 exEntry1 exManifest1 "main" exSt1
    { kind := .prompt, description := none
      versions := [("1.0.0", { ref := some "tag1", path := "p.md" })] }
    { ref := some "tag1", path := "p.md" } "c2" exLocked1 "NEW" "s/a/1.0.0/a.md" "NEW"
    { config := none
      lockfile := { assets := [exLocked1] }
      cache := [(("s", "a", "1.0.0"), .file "NEW")]
      events := [.contentFetchFile "p.md" "tag1"] }
    (by decide) (by decide) (by decide) (by decide) (by decide) (by decide) (by decide)
    (by decide)

/-- C3: with a Ledger entry for the pair at the same declared version and
the same resolved commit, `allowUpdate = false`, and cached bytes whose
recomputed hash matches the recorded sha256, `resolveAsset` returns the
cache-built `ResolvedAsset` carrying the Ledger's sha256 and leaves the
state untouched — no content fetch events, no lockfile write. -/
theorem c3_fast_path_idempotent (env : Env) (repo : Repo) (entry : ParcaAssetEntry)
    (manifest : ParcaManifest) (manifestRef : String) (st : St)
    (assetMeta : ParcaManifestAsset) (versionMeta : ParcaManifestVersion) (commit : String)
    (l : ParcaLockedAsset)
    (h1 : lookupA manifest.assets entry.id = some assetMeta)
    (h2 : lookupA assetMeta.versions entry.version = some versionMeta)
    (h3 : repo.resolveRef (effectiveRefOf versionMeta manifestRef) = some commit)
    (h4 : findAsset st.lockfile entry.id entry.source = some l)
    (h5 : l.version = entry.version)
    (h6 : l.commit = commit)
    (h7 : isCached env.h st.cache entry.source entry.id entry.version assetMeta.kind
        l.sha256 = true) :
    resolveAsset env repo entry manifest manifestRef false st =
      (.ok
        { id := entry.id
          version := entry.version
          source := entry.source
          commit := commit
          sha256 := l.sha256
          content := (readFromCache st.cache entry.source entry.id entry.version
            assetMeta.kind).getD ""
          cachePath := getAssetPath entry.source entry.id entry.version assetMeta.kind
          mapping := entry.mapping }, st) := by
  have hfast : fastPathHit env st entry assetMeta.kind commit false = some l := by
    simp only [fastPathHit, h4]
    rw [if_pos ⟨h5, h6, by trivial⟩, if_pos h7]
  simp only [resolveAsset, h1, h2, h3, hfast]

/-- Witness for C3 on the fast-path fixture: the second resolution of a
locked, unchanged asset returns the cached bytes with the Ledger's hash
and performs no fetch or lockfile write. -/
theorem c3_witness :
    resolveAsset exEnv3 exRepo3 exEntry1 exManifest3 "c1" false exSt3 =
      (.ok
        { id := "a", version := "1.0.0", source := "s", commit := "c1", sha256 := "BODY"
          content := "BODY", cachePath := "s/a/1.0.0/a.md", mapping := none }, exSt3) := by
  have h := c3_fast_path_idempotent exEnv3 exRepo3 exEntry1 exManifest3 "c1" exSt3
    { kind := .prompt, description := none
      versions := [("1.0.0", { ref := none, path := "p.md" })] }
    { ref := none, path := "p.md" } "c1" exLocked3
    (by decide) (by decide) (by decide) (by decide) (by decide) (by decide) (by decide)
  exact h

/-- C2: when the Ledger holds an entry for an asset's `(id, source)` pair
whose recorded version equals the declared version, `resolveAll`'s
per-asset step fetches the manifest at the locked commit (the first event
it emits is that fetch); otherwise the manifest ref is the registry's
moving ref `main`.  Consequently an unpinned manifest version (no
explicit ref) resolves its effective ref to the locked commit. -/
theorem c2_locked_version_pins_manifest_ref (env : Env) (url : String) (lf0 : ParcaLockfile)
    (asset : ParcaAssetEntry) (locked : ParcaLockedAsset) (st : St)
    (hl : findAsset lf0 asset.id asset.source = some locked)
    (hv : locked.version = asset.version) :
    manifestRefFor lf0 asset = locked.commit ∧
    (∀ vm : ParcaManifestVersion, vm.ref = none →
      effectiveRefOf vm (manifestRefFor lf0 asset) = locked.commit) ∧
    (∃ tail, ((processAsset env url lf0 asset st).2).events =
      st.events ++ .manifestFetch (env.repoOf url).url locked.commit :: tail) ∧
    (∀ (lf1 : ParcaLockfile) (a1 : ParcaAssetEntry),
      (∀ l1, findAsset lf1 a1.id a1.source = some l1 → l1.version ≠ a1.version) →
      manifestRefFor lf1 a1 = "main") := by
  have hm : manifestRefFor lf0 asset = locked.commit := by
    simp only [manifestRefFor, hl]
    rw [if_pos hv]
  refine ⟨hm, ?_, ?_, ?_⟩
  · intro vm h
    unfold effectiveRefOf
    rw [h]
    exact hm
  · cases hma : (env.repoOf url).manifestAt locked.commit with
    | none =>
      refine ⟨[], ?_⟩
      simp [processAsset, hm, fetchManifest, addEvent, hma]
    | some m =>
      by_cases hs : m.schema ≠ ""
      · obtain ⟨tail, htail⟩ := resolveAsset_events_extend env (env.repoOf url) asset m
          locked.commit false
          (addEvent st (.manifestFetch (env.repoOf url).url locked.commit))

        refine ⟨tail, ?_⟩
        simp only [addEvent] at htail
        simp only [processAsset, hm, fetchManifest, addEvent, hma, if_pos hs]
        rw [htail]
        simp
      · refine ⟨[], ?_⟩
        simp [processAsset, hm, fetchManifest, addEvent, hma, if_neg hs]
  · intro lf1 a1 hno
    cases hfa : findAsset lf1 a1.id a1.source with
    | none => simp [manifestRefFor, hfa]
    | some l1 =>
      simp only [manifestRefFor, hfa]
      rw [if_neg (hno l1 hfa)]

/-- Witness for C2 on the fast-path fixture: the lockfile pins `a@1.0.0`
at commit `c1`, so the per-asset step fetches the manifest at `c1` and an
unpinned version's effective ref is `c1`. -/
theorem c2_witness :
    manifestRefFor { assets := [exLocked3] } exEntry1 = "c1" ∧
    effectiveRefOf { ref := none, path := "p.md" }
      (manifestRefFor { assets := [exLocked3] } exEntry1) = "c1" ∧
    (∃ tail, ((processAsset exEnv3 "u3" { assets := [exLocked3] } exEntry1 exSt3).2).events =
      exSt3.events ++ .manifestFetch "u3" "c1" :: tail) := by
  obtain ⟨h1, h2, h3, _⟩ := c2_locked_version_pins_manifest_ref exEnv3 "u3"
    { assets := [exLocked3] } exEntry1 exLocked3 exSt3 (by decide) (by decide)
  exact ⟨h1, h2 _ rfl, h3⟩

/-- C8 counterexample: a config with two assets from one source, an empty
lockfile (so both assets need the manifest at the single ref `main`), yet
one `resolveAll` run issues two manifest fetches to that source — more
than the one distinct manifest ref the claim allows. -/
theorem c8_counterexample :
    (resolveAll exEnv8 exSt8).2.events.countP (isManifestFetchTo "u8") = 2 ∧
    (resolveAll exEnv8 exSt8).2.events.filter (isManifestFetchTo "u8") =
      [.manifestFetch "u8" "main", .manifestFetch "u8" "main"] := by
  constructor
  · decide
  · decide

/-- C8 amended: `resolveAll` groups assets by source alias (one provider
per source), but `fetchManifest` runs once per asset: for a registered
source, processing its group adds exactly one manifest-fetch event per
declared asset, regardless of how many distinct manifest refs the assets
require. -/
theorem c8_amended_fetch_per_asset (env : Env) (sources : List (String × ParcaSource))
    (lf0 : ParcaLockfile) (alias0 : String) (assets : List ParcaAssetEntry) (st : St)
    (src : ParcaSource)
    (hsrc : lookupA sources alias0 = some src) :
    ((processGroup env sources lf0 alias0 assets st).2).events.countP isManifestFetch =
      st.events.countP isManifestFetch + assets.length := by
  simp only [processGroup, hsrc]
  exact processAssetsLoop_mfetch_count env src.url lf0 assets st

/-- Witness for the amended C8 on the two-asset fixture: the group for
alias `s` adds exactly two manifest-fetch events. -/
theorem c8_witness :
    ((processGroup exEnv8 exCfg8.sources { assets := [] } "s" exCfg8.assets exSt8).2).events.countP
        isManifestFetch =
      exSt8.events.countP isManifestFetch + 2 := by
  have h := c8_amended_fetch_per_asset exEnv8 exCfg8.sources { assets := [] } "s"
    exCfg8.assets exSt8 { provider := .github, url := "u8" } (by decide)
  exact h

/-- C9 counterexample: the cached bytes `OLD` match the Ledger's recorded
hash, `allowUpdate` is false, yet the resolution (slow path, because the
version's pin resolves to a new commit) overwrites the cache entry with
the freshly fetched `NEW` bytes before failing with `IntegrityMismatch`. -/
theorem c9_counterexample :
    isCached exHash exSt1.cache "s" "a" "1.0.0" .prompt exLocked1.sha256 = true ∧
    (resolveAsset exEnv1 exRepo1 exEntry1 exManifest1 "main" false exSt1).1 =
      .error (.integrityMismatch "a" "1.0.0" "OLD" "NEW") ∧
    cacheLookup ((resolveAsset exEnv1 exRepo1 exEntry1 exManifest1 "main" false exSt1).2).cache
      ("s", "a", "1.0.0") = some (.file "NEW") ∧
    cacheLookup exSt1.cache ("s", "a", "1.0.0") = some (.file "OLD") ∧
    (CacheObj.file "NEW") ≠ (CacheObj.file "OLD") := by
  refine ⟨by decide, by decide, by decide, by decide, by decide⟩

/-- C9 amended: a cache entry whose hash matches the Ledger is preserved by
any resolution that fails before the content fetch (asset missing, version
missing, ref resolution failure leave the whole state unchanged) or that
takes the fast path (whose final state is the input state); but on the slow
path `resolveAsset` writes the fetched bytes into the cache *before* the
integrity gate — for single-file kinds via `writeToCache`, for skills via
`writeDirectoryToCache` — so a resolution that ends in `IntegrityMismatch`
leaves the Ledger unchanged while the cache entry is already overwritten
with the newly fetched (normalized) content. -/
theorem c9_amended_cache_overwritten_before_gate (env : Env) (repo : Repo)
    (entry : ParcaAssetEntry) (manifest : ParcaManifest) (manifestRef : String) (st : St) :
    (lookupA manifest.assets entry.id = none →
      resolveAsset env repo entry manifest manifestRef false st =
        (.error (.assetMissing entry.id), st)) ∧
    (∀ assetMeta, lookupA manifest.assets entry.id = some assetMeta →
      lookupA assetMeta.versions entry.version = none →
      resolveAsset env repo entry manifest manifestRef false st =
        (.error (.versionNotFound entry.id entry.version), st)) ∧
    (∀ assetMeta versionMeta, lookupA manifest.assets entry.id = some assetMeta →
      lookupA assetMeta.versions entry.version = some versionMeta →
      repo.resolveRef (effectiveRefOf versionMeta manifestRef) = none →
      resolveAsset env repo entry manifest manifestRef false st =
        (.error (.refResolutionFailure (effectiveRefOf versionMeta manifestRef)), st)) ∧
    (∀ assetMeta versionMeta commit l,
      lookupA manifest.assets entry.id = some assetMeta →
      lookupA assetMeta.versions entry.version = some versionMeta →
      repo.resolveRef (effectiveRefOf versionMeta manifestRef) = some commit →
      fastPathHit env st entry assetMeta.kind commit false = some l →
      (resolveAsset env repo entry manifest manifestRef false st).2 = st) ∧
    (∀ assetMeta versionMeta commit l newContent,
      lookupA manifest.assets entry.id = some assetMeta →
      lookupA assetMeta.versions entry.version = some versionMeta →
      repo.resolveRef (effectiveRefOf versionMeta manifestRef) = some commit →
      findAsset st.lockfile entry.id entry.source = some l →
      l.sha256 ≠ "" →
      fastPathHit env st entry assetMeta.kind commit false = none →
      assetMeta.kind ≠ .skill →
      repo.fileAt versionMeta.path (effectiveRefOf versionMeta manifestRef) =
        some newContent →
      l.sha256 ≠ computeHashFromString env.h (normalize newContent) →
      (resolveAsset env repo entry manifest manifestRef false st).1 =
        .error (.integrityMismatch entry.id entry.version l.sha256
          (computeHashFromString env.h (normalize newContent))) ∧
      ((resolveAsset env repo entry manifest manifestRef false st).2).lockfile = st.lockfile ∧
      ((resolveAsset env repo entry manifest manifestRef false st).2).cache =
        cacheInsert st.cache (entry.source, entry.id, entry.version)
          (.file (normalize newContent))) ∧
    (∀ assetMeta versionMeta commit l files skillFile,
      lookupA manifest.assets entry.id = some assetMeta →
      lookupA assetMeta.versions entry.version = some versionMeta →
      repo.resolveRef (effectiveRefOf versionMeta manifestRef) = some commit →
      findAsset st.lockfile entry.id entry.source = some l →
      l.sha256 ≠ "" →
      fastPathHit env st entry assetMeta.kind commit false = none →
      assetMeta.kind = .skill →
      repo.dirAt versionMeta.path (effectiveRefOf versionMeta manifestRef) = some files →
      files.find? (fun f => toLowerStr f.1 == "skill.md") = some skillFile →
      l.sha256 ≠ computeDirectoryHash env.h (files.map (fun f => (f.1, normalize f.2))) →
      (resolveAsset env repo entry manifest manifestRef false st).1 =
        .error (.integrityMismatch entry.id entry.version l.sha256
          (computeDirectoryHash env.h (files.map (fun f => (f.1, normalize f.2))))) ∧
      ((resolveAsset env repo entry manifest manifestRef false st).2).lockfile = st.lockfile ∧
      ((resolveAsset env repo entry manifest manifestRef false st).2).cache =
        cacheInsert st.cache (entry.source, entry.id, entry.version)
          (.dir (files.map (fun f => (f.1, normalize f.2))))) := by
  refine ⟨?_, ?_, ?_, ?_, ?_, ?_⟩
  · intro h1
    simp only [resolveAsset, h1]
  · intro assetMeta h1 h2
    simp only [resolveAsset, h1, h2]
  · intro assetMeta versionMeta h1 h2 h3
    simp only [resolveAsset, h1, h2, h3]
  · intro assetMeta versionMeta commit l h1 h2 h3 h6
    simp only [resolveAsset, h1, h2, h3, h6]
  · intro assetMeta versionMeta commit l newContent h1 h2 h3 h4 h5 h6 hkind hfile h8
    have hfc : fetchAndCache env repo entry assetMeta.kind versionMeta
        (effectiveRefOf versionMeta manifestRef) st =
        (.ok (computeHashFromString env.h (normalize newContent),
          getAssetPath entry.source entry.id entry.version .prompt, newContent),
          { st with
            cache := cacheInsert st.cache (entry.source, entry.id, entry.version)
              (.file (normalize newContent))
            events := st.events ++
              [.contentFetchFile versionMeta.path (effectiveRefOf versionMeta manifestRef)] }) := by
      cases hk : assetMeta.kind with
      | skill => exact absurd hk hkind
      | prompt => simp [fetchAndCache, hfile, addEvent, writeToCache]
      | instruction => simp [fetchAndCache, hfile, addEvent, writeToCache]
    simp only [resolveAsset, h1, h2, h3, h4, h6, hfc]
    rw [if_pos ⟨h5, h8, by trivial⟩]
    exact ⟨rfl, rfl, rfl⟩
  · intro assetMeta versionMeta commit l files skillFile h1 h2 h3 h4 h5 h6 hkind hdir hfind h8
    have hfc : fetchAndCache env repo entry assetMeta.kind versionMeta
        (effectiveRefOf versionMeta manifestRef) st =
        (.ok (computeDirectoryHash env.h (files.map (fun f => (f.1, normalize f.2))),
          entry.source ++ "/" ++ entry.id ++ "/" ++ entry.version, skillFile.2),
          { st with
            cache := cacheInsert st.cache (entry.source, entry.id, entry.version)
              (.dir (files.map (fun f => (f.1, normalize f.2))))
            events := st.events ++
              [.contentFetchDir versionMeta.path (effectiveRefOf versionMeta manifestRef)] }) := by
      rw [hkind]
      simp [fetchAndCache, hdir, hfind, addEvent, writeDirectoryToCache]
    simp only [resolveAsset, h1, h2, h3, h4, h6, hfc]
    rw [if_pos ⟨h5, h8, by trivial⟩]
    exact ⟨rfl, rfl, rfl⟩

/-- Witness for the amended C9: on the fast-path fixture the final state is
the input state (the matching cached `BODY` is untouched); on the file
fixture the failing resolution reports `IntegrityMismatch`, keeps the
Ledger at `OLD`, and leaves `NEW` in the cache slot; on the skill fixture
the directory entry is likewise overwritten before the failing gate. -/
theorem c9_witness :
    ((resolveAsset exEnv3 exRepo3 exEntry1 exManifest3 "c1" false exSt3).2 = exSt3) ∧
    ((resolveAsset exEnv1 exRepo1 exEntry1 exManifest1 "main" false exSt1).1 =
      .error (.integrityMismatch "a" "1.0.0" "OLD"
        (computeHashFromString exHash (normalize "NEW"))) ∧
     ((resolveAsset exEnv1 exRepo1 exEntry1 exManifest1 "main" false exSt1).2).lockfile =
       exSt1.lockfile ∧
     ((resolveAsset exEnv1 exRepo1 exEntry1 exManifest1 "main" false exSt1).2).cache =
       cacheInsert exSt1.cache ("s", "a", "1.0.0") (.file (normalize "NEW"))) ∧
    ((resolveAsset exEnv9 exRepo9 exEntry9 exManifest9 "main" false exSt9).1 =
      .error (.integrityMismatch "sk" "1.0.0" "SKILL.mdOLD"
        (computeDirectoryHash exHash [("SKILL.md", normalize "NEW")])) ∧
     ((resolveAsset exEnv9 exRepo9 exEntry9 exManifest9 "main" false exSt9).2).lockfile =
       exSt9.lockfile ∧
     ((resolveAsset exEnv9 exRepo9 exEntry9 exManifest9 "main" false exSt9).2).cache =
       cacheInsert exSt9.cache ("s", "sk", "1.0.0") (.dir [("SKILL.md", normalize "NEW")])) := by
  refine ⟨?_, ?_, ?_⟩
  · exact (c9_amended_cache_overwritten_before_gate exEnv3 exRepo3 exEntry1 exManifest3 "c1"
      exSt3).2.2.2.1
      { kind := .prompt, description := none
        versions := [("1.0.0", { ref := none, path := "p.md" })] }
      { ref := none, path := "p.md" } "c1" exLocked3
      (by decide) (by decide) (by decide) (by decide)
  · exact (c9_amended_cache_overwritten_before_gate exEnv1 exRepo1 exEntry1 exManifest1 "main"
      exSt1).2.2.2.2.1
      { kind := .prompt, description := none
        versions := [("1.0.0", { ref := some "tag1", path := "p.md" })] }
      { ref := some "tag1", path := "p.md" } "c2" exLocked1 "NEW"
      (by decide) (by decide) (by decide) (by decide) (by decide) (by decide) (by decide)
      (by decide) (by decide)
  · exact (c9_amended_cache_overwritten_before_gate exEnv9 exRepo9 exEntry9 exManifest9 "main"
      exSt9).2.2.2.2.2
      { kind := .skill, description := none
        versions := [("1.0.0", { ref := some "tag1", path := "dir" })] }
      { ref := some "tag1", path := "dir" } "c2" exLocked9 [("SKILL.md", "NEW")]
      ("SKILL.md", "NEW")
      (by decide) (by decide) (by decide) (by decide) (by decide) (by decide) (by decide)
      (by decide) (by decide) (by decide)

/-- C4 counterexample: with declared versions `1.0.0-alpha` and `0.9.0`,
both SemVer-valid and with `1.0.0-alpha` the SemVer maximum, `latest`
selects `0.9.0` — because `maxSatisfying(versions, "*")` excludes
prereleases — contradicting "returns the maximum SemVer-valid version
whenever at least one declared version is valid SemVer". -/
theorem c4_counterexample :
    selectVersion ["1.0.0-alpha", "0.9.0"] .latest = some "0.9.0" ∧
    parseSemVer "1.0.0-alpha" = some ⟨1, 0, 0, [.str "alpha"]⟩ ∧
    parseSemVer "0.9.0" = some ⟨0, 9, 0, []⟩ ∧
    semverCompare ⟨0, 9, 0, []⟩ ⟨1, 0, 0, [.str "alpha"]⟩ = .lt ∧
    "0.9.0" ≠ "1.0.0-alpha" := by
  refine ⟨by decide, by decide, by decide, by decide, by decide⟩

/-- C4 amended: for non-empty declared sets, `latest` returns a declared
version that is SemVer-valid, non-prerelease and SemVer-maximal among the
valid non-prerelease ones whenever such a version exists; when no declared
version is valid-and-non-prerelease it falls back to the lexicographically
greatest string.  A range specifier returns the maximum declared version
satisfying the range under node-semver satisfaction (prereleases excluded
unless a same-triple prerelease comparator admits them), and when nothing
satisfies, `install` fails with `NoMatchingVersion` carrying the full list
of declared versions. -/
theorem c4_amended_version_selection :
    (∀ (versions : List String),
      (∃ x ∈ versions, (starFilter x).isSome = true) →
      ∃ m sm, selectVersion versions .latest = some m ∧ m ∈ versions ∧
        starFilter m = some sm ∧
        ∀ v ∈ versions, ∀ sv, starFilter v = some sv → semverCompare sv sm ≠ .gt) ∧
    (∀ (versions : List String), versions ≠ [] →
      (∀ v ∈ versions, starFilter v = none) →
      ∃ m, selectVersion versions .latest = some m ∧ m ∈ versions ∧ ∀ v ∈ versions, v ≤ m) ∧
    (∀ (versions : List String) (r : RangeSpec) (m : String),
      selectVersion versions (.range r) = some m →
      ∃ sm, m ∈ versions ∧ rangeFilter r m = some sm ∧
        ∀ v ∈ versions, ∀ sv, rangeFilter r v = some sv → semverCompare sv sm ≠ .gt) ∧
    (∀ (env : Env) (url assetId : String) (spec : VersionSpec) (st : St) (rc : String)
        (m : ParcaManifest) (meta : ParcaManifestAsset),
      (env.repoOf url).resolveRef "main" = some rc →
      (env.repoOf url).manifestAt rc = some m →
      m.schema ≠ "" →
      lookupA m.assets assetId = some meta →
      selectVersion (meta.versions.map (·.1)) spec = none →
      (install env url assetId spec false st).1 =
        .error (.noMatchingVersion assetId (meta.versions.map (·.1)))) := by
  refine ⟨?_, ?_, ?_, ?_⟩
  · intro versions ⟨x, hx, hpx⟩
    have hsome : (semMaxFold starFilter versions).isSome = true :=
      semMaxFold_isSome starFilter versions none (Or.inr ⟨x, hx, hpx⟩)
    obtain ⟨res, hres⟩ := Option.isSome_iff_exists.mp hsome
    have horigin := semMaxFold_origin starFilter versions none res hres
    rcases horigin with habs | ⟨hmem, hp⟩
    · cases habs
    · refine ⟨res.1, res.2, ?_, hmem, hp, ?_⟩
      · unfold selectVersion
        have : maxSatisfyingStar versions = some res.1 := by
          unfold maxSatisfyingStar
          rw [show semMaxFold starFilter versions = some res from hres]
          rfl
        rw [this]
      · exact fun v hv sv hsv => semMaxFold_max starFilter versions none res hres v sv hv hsv
  · intro versions hne hall
    have hnone : maxSatisfyingStar versions = none := by
      unfold maxSatisfyingStar semMaxFold
      rw [semMaxFold_all_none starFilter versions none hall]
      rfl
    obtain ⟨m, hm, hmem, hmax⟩ := jsSortDescHead_spec versions hne
    refine ⟨m, ?_, hmem, hmax⟩
    unfold selectVersion
    rw [hnone, hm]
  · intro versions r m hsel
    unfold selectVersion maxSatisfyingRange at hsel
    obtain ⟨res, hres, hfst⟩ := Option.map_eq_some'.mp hsel
    have horigin := semMaxFold_origin (rangeFilter r) versions none res hres
    rcases horigin with habs | ⟨hmem, hp⟩
    · cases habs
    · subst hfst
      exact ⟨res.2, hmem, hp,
        fun v hv sv hsv => semMaxFold_max (rangeFilter r) versions none res hres v sv hv hsv⟩
  · intro env url assetId spec st rc m meta hres hman hschema ha hsel
    simp only [install, hres, fetchManifest, addEvent, hman, if_pos hschema, ha, hsel]

/-- Witness for the amended C4: with declared versions `1.0.0` and
`2.0.0`, `latest` returns a valid non-prerelease declared maximum. -/
theorem c4_witness :
    ∃ m sm, selectVersion ["1.0.0", "2.0.0"] .latest = some m ∧ m ∈ ["1.0.0", "2.0.0"] ∧
      starFilter m = some sm ∧
      ∀ v ∈ ["1.0.0", "2.0.0"], ∀ sv, starFilter v = some sv → semverCompare sv sm ≠ .gt :=
  c4_amended_version_selection.1 ["1.0.0", "2.0.0"]
    ⟨"1.0.0", List.mem_cons_self _ _, by decide⟩

/-- C6 counterexample: the asset's versions are `0.9.0` (SemVer-valid, no
ref — the maximum valid version *without* an explicit ref) and `1.0.0`
(pinned).  Publishing `1.1.0` with the head commit available leaves
`0.9.0` unpinned, while the claim requires it to acquire `ref = h`: the
code checkpoints only when the overall maximum SemVer-valid version
happens to be ref-less. -/
theorem c6_counterexample :
    publishVersion exManifest6 "a" "1.1.0" "p2" .prompt (some "h") =
      .ok
        { schema := "1.0"
          assets :=
            [("a",
              { kind := .prompt, description := none
                versions :=
                  [("0.9.0", { ref := none, path := "p0" }),
                   ("1.0.0", { ref := some "c0", path := "p1" }),
                   ("1.1.0", { ref := none, path := "p2" })] })] } ∧
    lookupA (assetVersions exManifest6 "a") "0.9.0" = some { ref := none, path := "p0" } ∧
    lookupA (assetVersions exManifest6 "a") "1.0.0" = some { ref := some "c0", path := "p1" } ∧
    (assetVersions exManifest6 "a").map (·.1) = ["0.9.0", "1.0.0"] ∧
    (parseSemVer "0.9.0").isSome = true := by
  refine ⟨by decide, by decide, by decide, by decide, by decide⟩

/-- C6 amended: `publishVersion` fails with `DuplicateVersion` when the
version already exists; otherwise it adds the new version without a ref
and — checkpoint rule — picks the maximum SemVer-valid *existing* version
(`maxSatisfying(·, "*")` with lexicographic fallback) and pins it to the
head commit only when that chosen version has no explicit ref. -/
theorem c6_amended_checkpoint_rule (m : ParcaManifest) (assetId version filePath : String)
    (kind : AssetKind) (c : String) :
    (∀ meta, lookupA (assetVersions m assetId) version = some meta →
      publishVersion m assetId version filePath kind (some c) =
        .error (.duplicateVersion assetId version)) ∧
    (lookupA (assetVersions m assetId) version = none →
      ∃ m2, publishVersion m assetId version filePath kind (some c) = .ok m2 ∧
        lookupA (assetVersions m2 assetId) version = some { ref := none, path := filePath } ∧
        (∀ prev prevMeta,
          previousVersionOf (((assetVersions m assetId).map (·.1)).filter
            (fun v => (parseSemVer v).isSome)) = some prev →
          lookupA (assetVersions m assetId) prev = some prevMeta →
          prevMeta.ref = none →
          lookupA (assetVersions m2 assetId) prev = some { prevMeta with ref := some c })) := by
  constructor
  · intro meta hmeta
    cases hma : lookupA m.assets assetId with
    | some a0 =>
      simp only [assetVersions, hma] at hmeta
      simp only [publishVersion, hma, hmeta]
    | none =>
      simp only [assetVersions, hma] at hmeta
      simp [lookupA] at hmeta
  · intro hnone
    cases hma : lookupA m.assets assetId with
    | some a0 =>
      simp only [assetVersions, hma] at hnone
      refine ⟨⟨m.schema, upsertA m.assets assetId
        ⟨a0.kind, a0.description, checkpointVersions a0.versions (some c) ++
          [(version, ⟨none, filePath⟩)]⟩⟩, ?_, ?_, ?_⟩
      · simp only [publishVersion, hma, hnone]
      · simp only [assetVersions, lookupA_upsertA_self]
        rw [lookupA_append_right _ _ _
          (checkpointVersions_lookup_none a0.versions (some c) version hnone)]
        simp [lookupA, List.find?]
      · intro prev prevMeta hprev hpm href
        simp only [assetVersions, hma] at hprev hpm
        have hcp := checkpointVersions_applies a0.versions c prev prevMeta hprev hpm href
        simp only [assetVersions, lookupA_upsertA_self]
        rw [hcp]
        exact lookupA_append_left _ _ _ _ (lookupA_setRefAt_self a0.versions prev c prevMeta hpm)
    | none =>
      refine ⟨⟨m.schema, upsertA m.assets assetId
        ⟨kind, none, checkpointVersions [] (some c) ++ [(version, ⟨none, filePath⟩)]⟩⟩,
        ?_, ?_, ?_⟩
      · simp only [publishVersion, hma]
        rfl
      · simp only [assetVersions, lookupA_upsertA_self]
        rw [lookupA_append_right _ _ _
          (checkpointVersions_lookup_none [] (some c) version rfl)]
        simp [lookupA, List.find?]
      · intro prev prevMeta hprev hpm href
        simp only [assetVersions, hma] at hprev
        rw [show (([] : List (String × ParcaManifestVersion)).map (·.1)).filter
          (fun v => (parseSemVer v).isSome) = [] from rfl, previousVersionOf_nil] at hprev
        cases hprev

/-- Witness for the amended C6: publishing `1.1.0` over a single rolling
`1.0.0` pins `1.0.0` to the head commit `h` and adds `1.1.0` without a
ref. -/
theorem c6_witness :
    ∃ m2,
      publishVersion
          { schema := "1.0"
            assets :=
              [("a", { kind := .prompt, description := none
                       versions := [("1.0.0", { ref := none, path := "p1" })] })] }
          "a" "1.1.0" "p2" .prompt (some "h") = .ok m2 ∧
      lookupA (assetVersions m2 "a") "1.1.0" = some { ref := none, path := "p2" } ∧
      lookupA (assetVersions m2 "a") "1.0.0" = some { ref := some "h", path := "p1" } := by
  obtain ⟨m2, hok, hnew, hprev⟩ :=
    (c6_amended_checkpoint_rule
      { schema := "1.0"
        assets :=
          [("a", { kind := .prompt, description := none
                   versions := [("1.0.0", { ref := none, path := "p1" })] })] }
      "a" "1.1.0" "p2" .prompt "h").2 (by decide)
  exact ⟨m2, hok, hnew, hprev "1.0.0" { ref := none, path := "p1" } (by decide) (by decide) rfl⟩

/-- C7 counterexample: publishing the SemVer-valid versions `2.0.0`,
`1.0.0`, `1.5.0` in that (non-monotone) order from an empty manifest, with
the head commit available at every step, ends with *two* versions without
a ref (`1.0.0` and `1.5.0`) — and `1.5.0` is not the SemVer-maximal
version (`2.0.0` is).  The at-most-one-rolling-version invariant is not
preserved by every successful publish sequence. -/
theorem c7_counterexample :
    publishSeq exEmptyManifest "a" [("2.0.0", "p"), ("1.0.0", "p"), ("1.5.0", "p")] .prompt
        (some "h") =
      .ok
        { schema := "1.0"
          assets :=
            [("a", { kind := .prompt, description := none
                     versions :=
                       [("2.0.0", { ref := some "h", path := "p" }),
                        ("1.0.0", { ref := none, path := "p" }),
                        ("1.5.0", { ref := none, path := "p" })] })] } ∧
    unpinnedVersions
        [("2.0.0", ({ ref := some "h", path := "p" } : ParcaManifestVersion)),
         ("1.0.0", { ref := none, path := "p" }),
         ("1.5.0", { ref := none, path := "p" })] = ["1.0.0", "1.5.0"] ∧
    (∀ v ∈ ["2.0.0", "1.0.0", "1.5.0"], (starFilter v).isSome = true) := by
  refine ⟨by decide, by decide, by decide⟩

/-- C7 amended: starting from a manifest whose asset already satisfies the
all-but-last-pinned shape (empty, or a single rolling version), publishing
any sequence of versions that are SemVer-valid, non-prerelease and
strictly SemVer-increasing (each above all existing versions), with the
head commit obtainable at every step, succeeds and preserves the
invariant: at most one version lacks a ref, and any such version is
SemVer-greater than every other version of the asset. -/
theorem c7_amended_rolling_invariant (assetId : String) (kind : AssetKind) (c : String) :
    ∀ (pubs : List (String × String)) (m : ParcaManifest),
      allButLastPinned (assetVersions m assetId) = true →
      (∀ k ∈ versionKeys (assetVersions m assetId) ++ pubs.map (·.1),
        (starFilter k).isSome = true) →
      AscendingOn starFilter (versionKeys (assetVersions m assetId) ++ pubs.map (·.1)) →
      ∃ m2, publishSeq m assetId pubs kind (some c) = .ok m2 ∧
        (unpinnedVersions (assetVersions m2 assetId)).length ≤ 1 ∧
        ∀ u ∈ unpinnedVersions (assetVersions m2 assetId),
          ∀ k ∈ versionKeys (assetVersions m2 assetId), k ≠ u →
            ∀ vk vu, starFilter k = some vk → starFilter u = some vu →
              semverCompare vk vu = .lt := by
  intro pubs
  induction pubs with
  | nil =>
    intro m hpin hval hasc
    simp only [List.map_nil, List.append_nil] at hval hasc
    refine ⟨m, rfl, unpinned_length_le_one _ hpin, ?_⟩
    intro u hu k hk hne vk vu hvk hvu
    have hlast := unpinned_mem_last _ hpin u hu
    exact asc_getLast_max starFilter _ hasc u hlast k hk hne vk vu hvk hvu
  | cons pv rest ih =>
    intro m hpin hval hasc
    obtain ⟨v, path⟩ := pv
    have hshape : versionKeys (assetVersions m assetId) ++ ((v, path) :: rest).map (·.1) =
        versionKeys (assetVersions m assetId) ++ v :: rest.map (·.1) := by
      simp
    rw [hshape] at hval hasc
    have hvalv : (starFilter v).isSome = true :=
      hval v (List.mem_append_right _ (List.mem_cons_self v _))
    have hvalkeys : ∀ k ∈ versionKeys (assetVersions m assetId), (starFilter k).isSome = true :=
      fun k hk => hval k (List.mem_append_left _ hk)
    have hpw := List.pairwise_append.mp hasc
    have hgt : ∀ k ∈ versionKeys (assetVersions m assetId), ∀ vk vv,
        starFilter k = some vk → starFilter v = some vv → semverCompare vk vv = .lt :=
      fun k hk vk vv2 hvk hvv2 => hpw.2.2 k hk v (List.mem_cons_self v _) vk vv2 hvk hvv2
    obtain ⟨m2, hok, hkeys2, hpin2⟩ :=
      publish_step_preserves m assetId v path kind c hpin hvalkeys hvalv hpw.1 hgt
    have hval2 : ∀ k ∈ versionKeys (assetVersions m2 assetId) ++ rest.map (·.1),
        (starFilter k).isSome = true := by
      intro k hk
      rw [hkeys2, List.append_assoc] at hk
      exact hval k (by simpa using hk)
    have hasc2 : AscendingOn starFilter
        (versionKeys (assetVersions m2 assetId) ++ rest.map (·.1)) := by
      rw [hkeys2, List.append_assoc]
      simpa using hasc
    obtain ⟨m3, hseq, hlen, hmax⟩ := ih m2 hpin2 hval2 hasc2
    refine ⟨m3, ?_, hlen, hmax⟩
    simp only [publishSeq, hok]
    exact hseq

/-- Witness for the amended C7: publishing `1.0.0` then `2.0.0` from an
empty manifest keeps at most one rolling version, SemVer-maximal. -/
theorem c7_witness :
    ∃ m2, publishSeq exEmptyManifest "a" [("1.0.0", "p"), ("2.0.0", "p")] .prompt
        (some "h") = .ok m2 ∧
      (unpinnedVersions (assetVersions m2 "a")).length ≤ 1 ∧
      ∀ u ∈ unpinnedVersions (assetVersions m2 "a"),
        ∀ k ∈ versionKeys (assetVersions m2 "a"), k ≠ u →
          ∀ vk vu, starFilter k = some vk → starFilter u = some vu →
            semverCompare vk vu = .lt := by
  have hasc : AscendingOn starFilter
      (versionKeys (assetVersions exEmptyManifest "a") ++
        ([("1.0.0", "p"), ("2.0.0", "p")].map (·.1))) := by
    constructor
    · intro y hy vx vy hvx hvy
      simp only [List.map_cons, List.map_nil, List.mem_cons, List.not_mem_nil, or_false] at hy
      subst hy
      have h1 : starFilter "1.0.0" = some ⟨1, 0, 0, []⟩ := by decide
      have h2 : starFilter "2.0.0" = some ⟨2, 0, 0, []⟩ := by decide
      rw [h1] at hvx
      rw [h2] at hvy
      cases hvx
      cases hvy
      decide
    · constructor
      · intro y hy
        simp at hy
      · exact List.Pairwise.nil
  exact c7_amended_rolling_invariant "a" .prompt "h" [("1.0.0", "p"), ("2.0.0", "p")]
    exEmptyManifest (by decide) (by decide) hasc

end Parca
